import Mathlib

/-!
# Subsonic search aggregator (`server/subsonic/searching.go`)

A shallow embedding of `doSearch` and `searchAll`, and proofs about them.

The Go code is concurrent: `searchAll` starts three `doSearch` goroutines, each of
which starts one anonymous goroutine that performs the data-source call.  The
embedding is a labelled step function on an explicit state: every label is one
atomic step of one goroutine, or the cancellation of the shared context by the
environment, and an execution is a list of labels.  All interleavings of the
goroutines are executions of the model; a slow call is a call whose steps are not
scheduled.

Modelling conventions:
* Go `int` values (offsets and counts) are only compared with `0` and passed on,
  so they are `Int`.
* A Go slice is a `List`; the zero value `nil` and the empty slice are both `[]`.
* A Go `error` is an `Option String`, `none` being `nil`.
* A data-source `Search` method is called at most once per category, so it is a
  function of its arguments.
* `strings.ToLower` and `sanitize.Accents` are library functions outside the
  repository; they are parameters of the model.
* The send on the unbuffered channel `done` and its receive in the `select` are one
  joint step; without a receiver the sender stays blocked.
* Writing a result variable is one atomic step.
* The context, once cancelled, stays cancelled; `ctx.Done()` is closed exactly when
  `ctx.Err()` is not nil.
* Elapsed-time fields of log lines are left out.
-/

namespace Subsonic

/-! ## Data model -/

/-- Go `error`: `none` is `nil`. -/
abbrev Error := Option String

/-- The struct `searchParams`. -/
structure searchParams where
  query : String
  artistCount : Int
  artistOffset : Int
  albumCount : Int
  albumOffset : Int
  songCount : Int
  songOffset : Int
  deriving DecidableEq, Repr

/-- The generic function type `searchFunc[T]`: `func(q string, offset int, size int) (T, error)`. -/
abbrev searchFunc (T : Type) := String → Int → Int → T × Error

/-- The three `Search` methods reached through `api.ds`. -/
structure DataStore (α β γ : Type) where
  MediaFile : searchFunc (List α)
  Album : searchFunc (List β)
  Artist : searchFunc (List γ)

/-- The two library functions used to normalise the query, `strings.ToLower` of the Go
standard library and `sanitize.Accents` of `github.com/deluan/sanitize`.  Their code is
not part of the repository, so they are parameters. -/
structure Libs where
  ToLower : String → String
  Accents : String → String

/-- Go `strings.TrimSuffix`: `s` without the trailing `suffix`, or `s` itself when it does
not end in `suffix`.  At most one occurrence is removed. -/
def strings.TrimSuffix (s suffix : String) : String :=
  if suffix.data.isSuffixOf s.data then
    String.mk (s.data.take (s.data.length - suffix.data.length))
  else s

/-- The query normalisation of `searchAll` (line 74):
`sanitize.Accents(strings.ToLower(strings.TrimSuffix(sp.query, "*")))`. -/
def normQuery (L : Libs) (query : String) : String :=
  L.Accents (L.ToLower (strings.TrimSuffix query "*"))

/-- The value of `ctx.Err()` once the context is done. -/
inductive CtxErr
  | canceled
  | deadlineExceeded
  deriving DecidableEq, Repr

/-- Log lines written by `doSearch` and `searchAll`. -/
inductive LogEntry
  /-- `log.Error(ctx, "Error searching "+typ, "query", q, err)` -/
  | error (msg q err : String)
  /-- `log.Trace(ctx, "Search for "+typ+" completed", "query", q, ...)` -/
  | trace (msg q : String)
  /-- `log.Debug(ctx, "Search resulted in %d songs, %d albums and %d artists", "query", sp.query, ...)` -/
  | debug (songs albums artists : Nat) (query : String)
  /-- `log.Warn(ctx, "Search was interrupted", ctx.Err(), "query", sp.query, ...)` -/
  | warn (err : CtxErr) (query : String)
  deriving DecidableEq, Repr

/-- Whether a log line is one of the two summary lines of `searchAll`. -/
def LogEntry.isSummary : LogEntry → Bool
  | .debug _ _ _ _ => true
  | .warn _ _ => true
  | _ => false

/-! ## `doSearch` -/

/-- Control point of a `doSearch` goroutine. -/
inductive WaitPc
  /-- the `go doSearch(...)` statement has not run yet -/
  | notSpawned
  /-- at the top of `doSearch` (line 50) -/
  | entry
  /-- blocked in the `select` (line 66) -/
  | select
  /-- returned; the deferred `wg.Done()` has run -/
  | returned
  deriving DecidableEq, Repr

/-- Control point of the anonymous goroutine started by `doSearch` (lines 54-65). -/
inductive CallPc
  /-- not started -/
  | notStarted
  /-- started, `s` not yet called -/
  | spawned
  /-- inside the call `s(q, offset, size)` -/
  | inCall
  /-- the call returned and `*result, err` were assigned (line 58) -/
  | assigned
  /-- logged; blocked in `done <- struct{}{}` (line 64) -/
  | sending
  /-- the send was received; the goroutine ended -/
  | finished
  deriving DecidableEq, Repr

/-- One `doSearch` invocation: its arguments, the control points of its two goroutines,
the variable `*result` points to, and two history counters: the calls made to `s` and
the number of `wg.Done()` calls. -/
structure Branch (T : Type) where
  q : String
  offset : Int
  size : Int
  pc : WaitPc
  inner : CallPc
  result : T
  calls : List (String × Int × Int)
  dones : Nat

/-- Atomic steps of one `doSearch` invocation. -/
inductive Act
  /-- lines 50-54: the `size == 0` test, then either return or start the goroutine -/
  | entry
  /-- the goroutine calls `s(q, offset, size)` -/
  | invoke
  /-- the call returns and `*result, err` are assigned -/
  | assign
  /-- lines 59-63: `log.Error` or `log.Trace` -/
  | logResult
  /-- `case <-done`: the send of line 64 meets the receive of line 67 -/
  | recvDone
  /-- `case <-ctx.Done()` -/
  | recvCancel
  deriving DecidableEq, Repr

/-- Lines 59-63 of `doSearch`: the line logged once the call has returned. -/
def doSearch.logLine (typ q : String) : Error → LogEntry
  | some err => LogEntry.error ("Error searching " ++ typ) q err
  | none => LogEntry.trace ("Search for " ++ typ ++ " completed") q

/-- One step of `doSearch[T]`.  `cancelled` says whether `ctx.Done()` is closed.  The
result is the new branch state, whether `wg.Done()` ran, and the log lines written. -/
def doSearch.step {T : Type} (s : searchFunc T) (typ : String) (cancelled : Bool) :
    Act → Branch T → Option (Branch T × Bool × List LogEntry)
  | .entry, b =>
    if b.pc = .entry then
      if b.size = 0 then
        some ({ b with pc := .returned, dones := b.dones + 1 }, true, [])
      else
        some ({ b with pc := .select, inner := .spawned }, false, [])
    else none
  | .invoke, b =>
    if b.inner = .spawned then
      some ({ b with inner := .inCall, calls := b.calls ++ [(b.q, b.offset, b.size)] }, false, [])
    else none
  | .assign, b =>
    if b.inner = .inCall then
      some ({ b with inner := .assigned, result := (s b.q b.offset b.size).1 }, false, [])
    else none
  | .logResult, b =>
    if b.inner = .assigned then
      some ({ b with inner := .sending }, false, [doSearch.logLine typ b.q (s b.q b.offset b.size).2])
    else none
  | .recvDone, b =>
    if b.pc = .select ∧ b.inner = .sending then
      some ({ b with pc := .returned, inner := .finished, dones := b.dones + 1 }, true, [])
    else none
  | .recvCancel, b =>
    if b.pc = .select ∧ cancelled = true then
      some ({ b with pc := .returned, dones := b.dones + 1 }, true, [])
    else none

/-! ## `searchAll` -/

/-- Control point of `searchAll`. -/
inductive MainPc
  /-- at function entry -/
  | start
  /-- after `wg.Add(3)` (line 76) -/
  | added
  /-- after line 77 -/
  | spawned1
  /-- after line 78 -/
  | spawned2
  /-- after line 79, blocked in `wg.Wait()` -/
  | waiting
  /-- `wg.Wait()` returned -/
  | joined
  /-- the summary line is written -/
  | logged
  /-- returned to the caller -/
  | returned
  deriving DecidableEq, Repr

/-- The three result categories. -/
inductive Cat
  | song
  | album
  | artist
  deriving DecidableEq, Repr

/-- Labels of the atomic steps of one `searchAll` call. -/
inductive Action
  /-- lines 73-76: normalise the query, `wg.Add(3)` -/
  | start
  /-- line 77 -/
  | goSong
  /-- line 78 -/
  | goAlbum
  /-- line 79 -/
  | goArtist
  /-- line 80: `wg.Wait()` returns, possible when the counter is 0 -/
  | wait
  /-- lines 82-87 -/
  | summary
  /-- line 88 -/
  | ret
  /-- a step of the `doSearch` invocation of one category -/
  | branch (c : Cat) (a : Act)
  /-- the environment cancels the shared context -/
  | cancel (e : CtxErr)
  deriving DecidableEq, Repr

/-- What one `searchAll` call is given: the library functions, the data store and the
parameters. -/
structure Config (α β γ : Type) where
  L : Libs
  ds : DataStore α β γ
  sp : searchParams

/-- State of one `searchAll` call. -/
structure State (α β γ : Type) where
  pc : MainPc
  q : String
  wg : Int
  ctxErr : Option CtxErr
  song : Branch (List α)
  album : Branch (List β)
  artist : Branch (List γ)
  log : List LogEntry
  ret : Option (List α × List β × List γ)

/-- A `doSearch` invocation that has not been started; `result` holds the zero value. -/
def Branch.idle (T : Type) [Inhabited T] : Branch T :=
  { q := "", offset := 0, size := 0, pc := .notSpawned, inner := .notStarted,
    result := default, calls := [], dones := 0 }

/-- State at entry of `searchAll`: the named results hold their zero values. -/
def State.init (α β γ : Type) : State α β γ :=
  { pc := .start, q := "", wg := 0, ctxErr := none,
    song := Branch.idle (List α), album := Branch.idle (List β), artist := Branch.idle (List γ),
    log := [], ret := none }

/-- The effect of a `doSearch` step on the shared state: the wait-group counter and the log. -/
def State.absorb {α β γ : Type} (st : State α β γ) (done : Bool) (lines : List LogEntry) :
    State α β γ :=
  { st with wg := if done then st.wg - 1 else st.wg, log := st.log ++ lines }

/-- Lines 82-87 of `searchAll`: the summary line, chosen by `ctx.Err()`. -/
def searchAll.summaryLine (query : String) (songs albums artists : Nat) : Option CtxErr → LogEntry
  | none => LogEntry.debug songs albums artists query
  | some e => LogEntry.warn e query

/-- One step of `searchAll` and the goroutines it starts. -/
def searchAll.step {α β γ : Type} (cfg : Config α β γ) :
    Action → State α β γ → Option (State α β γ)
  | .start, st =>
    if st.pc = .start then
      some { st with pc := .added, q := normQuery cfg.L cfg.sp.query, wg := st.wg + 3 }
    else none
  | .goSong, st =>
    if st.pc = .added then
      some { st with pc := .spawned1,
                     song := { st.song with q := st.q, offset := cfg.sp.songOffset,
                                            size := cfg.sp.songCount, pc := .entry } }
    else none
  | .goAlbum, st =>
    if st.pc = .spawned1 then
      some { st with pc := .spawned2,
                     album := { st.album with q := st.q, offset := cfg.sp.albumOffset,
                                              size := cfg.sp.albumCount, pc := .entry } }
    else none
  | .goArtist, st =>
    if st.pc = .spawned2 then
      some { st with pc := .waiting,
                     artist := { st.artist with q := st.q, offset := cfg.sp.artistOffset,
                                                size := cfg.sp.artistCount, pc := .entry } }
    else none
  | .wait, st =>
    if st.pc = .waiting ∧ st.wg = 0 then some { st with pc := .joined } else none
  | .summary, st =>
    if st.pc = .joined then
      some { st with pc := .logged,
                     log := st.log ++
                       [searchAll.summaryLine cfg.sp.query st.song.result.length
                          st.album.result.length st.artist.result.length st.ctxErr] }
    else none
  | .ret, st =>
    if st.pc = .logged then
      some { st with pc := .returned,
                     ret := some (st.song.result, st.album.result, st.artist.result) }
    else none
  | .branch .song a, st =>
    (doSearch.step cfg.ds.MediaFile "MediaFiles" st.ctxErr.isSome a st.song).map
      fun r => { st.absorb r.2.1 r.2.2 with song := r.1 }
  | .branch .album a, st =>
    (doSearch.step cfg.ds.Album "Albums" st.ctxErr.isSome a st.album).map
      fun r => { st.absorb r.2.1 r.2.2 with album := r.1 }
  | .branch .artist a, st =>
    (doSearch.step cfg.ds.Artist "Artists" st.ctxErr.isSome a st.artist).map
      fun r => { st.absorb r.2.1 r.2.2 with artist := r.1 }
  | .cancel e, st =>
    if st.ctxErr = none then some { st with ctxErr := some e } else none

/-- Run a list of steps from a state; `none` when one of them is not enabled. -/
def searchAll.runFrom {α β γ : Type} (cfg : Config α β γ) :
    List Action → State α β γ → Option (State α β γ)
  | [], st => some st
  | a :: as, st => (searchAll.step cfg a st).bind (searchAll.runFrom cfg as)

/-- Run a list of steps from the entry of `searchAll`. -/
def searchAll.run {α β γ : Type} (cfg : Config α β γ) (acts : List Action) :
    Option (State α β γ) :=
  searchAll.runFrom cfg acts (State.init α β γ)

/-! ## Invariants -/

/-- Whether the anonymous goroutine has called `s`. -/
def CallPc.called : CallPc → Bool
  | .notStarted => false
  | .spawned => false
  | _ => true

/-- Whether the anonymous goroutine has assigned `*result`. -/
def CallPc.wrote : CallPc → Bool
  | .assigned => true
  | .sending => true
  | .finished => true
  | _ => false

/-- Whether the anonymous goroutine will not run (again): never started, or ended. -/
def CallPc.settled : CallPc → Bool
  | .notStarted => true
  | .finished => true
  | _ => false

/-- Number of steps the anonymous goroutine has taken. -/
def CallPc.rank : CallPc → Nat
  | .notStarted => 0
  | .spawned => 1
  | .inCall => 2
  | .assigned => 3
  | .sending => 4
  | .finished => 5

/-- Progress of a `doSearch` goroutine. -/
def WaitPc.rank : WaitPc → Nat
  | .notSpawned => 0
  | .entry => 1
  | .select => 2
  | .returned => 3

/-- Which control points of the two goroutines of one `doSearch` can occur together. -/
def WaitPc.compat : WaitPc → CallPc → Bool
  | .notSpawned, i => i = .notStarted
  | .entry, i => i = .notStarted
  | .select, i => i = .spawned ∨ i = .inCall ∨ i = .assigned ∨ i = .sending
  | .returned, _ => true

/-- Invariant of one `doSearch` invocation. -/
structure Branch.Ok {T : Type} [Inhabited T] (s : searchFunc T) (b : Branch T) : Prop where
  result_eq : b.result = if b.inner.wrote then (s b.q b.offset b.size).1 else default
  calls_eq : b.calls = if b.inner.called then [(b.q, b.offset, b.size)] else []
  dones_eq : b.dones = if b.pc = .returned then 1 else 0
  compat : b.pc.compat b.inner = true
  size_ne : b.inner ≠ .notStarted → b.size ≠ 0
  size_eq : b.pc = .returned → b.inner = .notStarted → b.size = 0

/-- Progress of `searchAll`. -/
def MainPc.rank : MainPc → Nat
  | .start => 0
  | .added => 1
  | .spawned1 => 2
  | .spawned2 => 3
  | .waiting => 4
  | .joined => 5
  | .logged => 6
  | .returned => 7

/-- Invariant linking one `doSearch` invocation to `searchAll`: `k` is the rank `searchAll`
has once it has started the invocation, `q offset size` are the arguments it passes,
`rank` is its current rank and `cancelled` says whether the context is done. -/
structure Branch.Linked {T : Type} [Inhabited T] (s : searchFunc T) (q : String)
    (offset size : Int) (k rank : Nat) (cancelled : Bool) (b : Branch T) : Prop where
  ok : b.Ok s
  spawn : b.pc = .notSpawned ↔ rank < k
  args : b.pc ≠ .notSpawned → b.q = q ∧ b.offset = offset ∧ b.size = size
  joined : 5 ≤ rank → b.pc = .returned
  done : b.pc = .returned → b.size = 0 ∨ b.inner = .finished ∨ cancelled = true

/-- Invariant linking the value `x` returned for one category (if `searchAll` has returned)
to the `doSearch` invocation of that category: it is the zero value, or the value
returned by the call; and it is the zero value unless the call had been assigned. -/
def Branch.RetOk {T : Type} [Inhabited T] (s : searchFunc T) (q : String) (offset size : Int)
    (b : Branch T) (x : Option T) : Prop :=
  ∀ v, x = some v →
    (b.inner.wrote = false → v = default) ∧ (v = default ∨ v = (s q offset size).1)

/-- No anonymous goroutine will write a result slot any more. -/
def State.Stable {α β γ : Type} (st : State α β γ) : Prop :=
  st.song.inner.settled = true ∧ st.album.inner.settled = true ∧ st.artist.inner.settled = true

/-- Invariant of the states of one `searchAll` call. -/
structure State.Ok {α β γ : Type} (cfg : Config α β γ) (st : State α β γ) : Prop where
  song : st.song.Linked cfg.ds.MediaFile (normQuery cfg.L cfg.sp.query) cfg.sp.songOffset
    cfg.sp.songCount 2 st.pc.rank st.ctxErr.isSome
  album : st.album.Linked cfg.ds.Album (normQuery cfg.L cfg.sp.query) cfg.sp.albumOffset
    cfg.sp.albumCount 3 st.pc.rank st.ctxErr.isSome
  artist : st.artist.Linked cfg.ds.Artist (normQuery cfg.L cfg.sp.query) cfg.sp.artistOffset
    cfg.sp.artistCount 4 st.pc.rank st.ctxErr.isSome
  q_eq : st.pc ≠ .start → st.q = normQuery cfg.L cfg.sp.query
  wg_eq : st.wg = (if st.pc = .start then 0 else 3) -
    ((st.song.dones + st.album.dones + st.artist.dones : Nat) : Int)
  ret_iff : st.ret.isSome = true ↔ st.pc = .returned
  ret_eq : ∀ r, st.ret = some r → st.Stable →
    r = (st.song.result, st.album.result, st.artist.result)
  retSong : st.song.RetOk cfg.ds.MediaFile (normQuery cfg.L cfg.sp.query) cfg.sp.songOffset
    cfg.sp.songCount (st.ret.map fun r => r.1)
  retAlbum : st.album.RetOk cfg.ds.Album (normQuery cfg.L cfg.sp.query) cfg.sp.albumOffset
    cfg.sp.albumCount (st.ret.map fun r => r.2.1)
  retArtist : st.artist.RetOk cfg.ds.Artist (normQuery cfg.L cfg.sp.query) cfg.sp.artistOffset
    cfg.sp.artistCount (st.ret.map fun r => r.2.2)
  sum_none : st.pc.rank < 6 → st.log.filter LogEntry.isSummary = []
  sum_one : 6 ≤ st.pc.rank →
    (st.Stable ∧ st.log.filter LogEntry.isSummary =
      [LogEntry.debug st.song.result.length st.album.result.length st.artist.result.length
        cfg.sp.query]) ∨
    (∃ e, st.ctxErr = some e ∧ st.log.filter LogEntry.isSummary = [LogEntry.warn e cfg.sp.query])

/-! ## Termination measure and a scheduler that completes the call -/

/-- Steps one `doSearch` invocation can still take, at most. -/
def Branch.fuel {T : Type} (b : Branch T) : Nat :=
  8 - (b.pc.rank + b.inner.rank)

/-- Steps one `searchAll` call can still take, at most. -/
def State.fuel {α β γ : Type} (st : State α β γ) : Nat :=
  (7 - st.pc.rank) + st.song.fuel + st.album.fuel + st.artist.fuel +
    (if st.ctxErr.isSome then 0 else 1)

/-- Whether a label is the cancellation of the context. -/
def Action.isCancel : Action → Bool
  | .cancel _ => true
  | _ => false

/-- Whether a label is a step in which the anonymous goroutine making the call takes part. -/
def Action.byCall : Action → Bool
  | .branch _ .invoke => true
  | .branch _ .assign => true
  | .branch _ .logResult => true
  | .branch _ .recvDone => true
  | _ => false

/-- The next step of one `doSearch` invocation under a scheduler that lets the waiting
goroutine leave the `select` through `ctx.Done()` whenever it can. -/
def Branch.next {T : Type} (cancelled : Bool) (b : Branch T) : Option Act :=
  match b.pc with
  | .entry => some .entry
  | .select =>
    if cancelled then some .recvCancel
    else
      match b.inner with
      | .spawned => some .invoke
      | .inCall => some .assign
      | .assigned => some .logResult
      | .sending => some .recvDone
      | _ => none
  | _ => none

/-- The next step under that scheduler while `searchAll` is blocked in `wg.Wait()`: a step
of the song, album or artist invocation, in this order, or the end of the wait. -/
def State.nextWaiting {α β γ : Type} (st : State α β γ) : Action :=
  match st.song.next st.ctxErr.isSome, st.album.next st.ctxErr.isSome,
    st.artist.next st.ctxErr.isSome with
  | some a, _, _ => .branch .song a
  | none, some a, _ => .branch .album a
  | none, none, some a => .branch .artist a
  | none, none, none => .wait

/-- The next step of `searchAll` under that scheduler. -/
def State.next {α β γ : Type} (st : State α β γ) : Option Action :=
  match st.pc with
  | .start => some .start
  | .added => some .goSong
  | .spawned1 => some .goAlbum
  | .spawned2 => some .goArtist
  | .waiting => some st.nextWaiting
  | .joined => some .summary
  | .logged => some .ret
  | .returned => none

/-- The steps that scheduler takes from a state, at most `n` of them. -/
def searchAll.finish {α β γ : Type} (cfg : Config α β γ) : Nat → State α β γ → List Action
  | 0, _ => []
  | n + 1, st =>
    match st.next with
    | none => []
    | some a =>
      match searchAll.step cfg a st with
      | none => []
      | some st1 => a :: searchAll.finish cfg n st1

/-! ## Access by category -/

/-- Control point of the anonymous goroutine of a category. -/
def State.callPc {α β γ : Type} (st : State α β γ) : Cat → CallPc
  | .song => st.song.inner
  | .album => st.album.inner
  | .artist => st.artist.inner

/-- Control point of the `doSearch` goroutine of a category. -/
def State.waitPc {α β γ : Type} (st : State α β γ) : Cat → WaitPc
  | .song => st.song.pc
  | .album => st.album.pc
  | .artist => st.artist.pc

/-- The calls made so far to the `Search` method of a category. -/
def State.calls {α β γ : Type} (st : State α β γ) : Cat → List (String × Int × Int)
  | .song => st.song.calls
  | .album => st.album.calls
  | .artist => st.artist.calls

/-- The number of `wg.Done()` calls made so far by the `doSearch` invocation of a category. -/
def State.dones {α β γ : Type} (st : State α β γ) : Cat → Nat
  | .song => st.song.dones
  | .album => st.album.dones
  | .artist => st.artist.dones

/-- Length of the result variable of a category. -/
def State.resultLen {α β γ : Type} (st : State α β γ) : Cat → Nat
  | .song => st.song.result.length
  | .album => st.album.result.length
  | .artist => st.artist.result.length

/-- Length of the returned sequence of a category. -/
def retLen {α β γ : Type} (r : List α × List β × List γ) : Cat → Nat
  | .song => r.1.length
  | .album => r.2.1.length
  | .artist => r.2.2.length

/-- The count (`size`) `searchAll` passes for a category. -/
def searchParams.count (sp : searchParams) : Cat → Int
  | .song => sp.songCount
  | .album => sp.albumCount
  | .artist => sp.artistCount

/-- The offset `searchAll` passes for a category. -/
def searchParams.offset (sp : searchParams) : Cat → Int
  | .song => sp.songOffset
  | .album => sp.albumOffset
  | .artist => sp.artistOffset

/-- No goroutine of the call can take a step. -/
def State.Quiescent {α β γ : Type} (cfg : Config α β γ) (st : State α β γ) : Prop :=
  ∀ a : Action, a.isCancel = false → searchAll.step cfg a st = none

/-- The query argument passed to the `doSearch` invocation of a category. -/
def State.queryArg {α β γ : Type} (st : State α β γ) : Cat → String
  | .song => st.song.q
  | .album => st.album.q
  | .artist => st.artist.q

/-- Lower-casing of one character by the sample library functions: ASCII letters and two
accented capitals. -/
def Libs.sampleLower (c : Char) : Char :=
  match [('É', 'é'), ('È', 'è')].lookup c with
  | some d => d
  | none => c.toLower

/-- Folding of one character by the sample library functions: three accented letters. -/
def Libs.sampleFold (c : Char) : List Char :=
  match [('é', ['e']), ('è', ['e']), ('á', ['a'])].lookup c with
  | some t => t
  | none => [c]

/-! ## Sample inputs -/

/-- A sample instance of the library functions, used for concrete runs: lower-casing of
ASCII letters and of two accented capitals, and folding of three accented letters. -/
def Libs.sample : Libs where
  ToLower := fun s => String.mk (s.data.map Libs.sampleLower)
  Accents := fun s => String.mk (s.data.flatMap Libs.sampleFold)

/-- A sample data store over numbered entities: each `Search` returns the `size` entries
after `offset` of a fixed list; the album search also returns an error when `failing`. -/
def sampleStore (failing : Bool) : DataStore Nat Nat Nat where
  MediaFile := fun _ offset size => (([11, 12, 13].drop offset.toNat).take size.toNat, none)
  Album := fun _ offset size =>
    (([21, 22, 23].drop offset.toNat).take size.toNat, if failing then some "boom" else none)
  Artist := fun _ offset size => (([31, 32, 33].drop offset.toNat).take size.toNat, none)

/-- The request of the concrete scenario: query `"Beatles*"`, artistCount=1, albumCount=0,
songCount=2. -/
def beatlesParams (songOffset albumOffset artistOffset : Int) : searchParams :=
  { query := "Beatles*", artistCount := 1, artistOffset := artistOffset, albumCount := 0,
    albumOffset := albumOffset, songCount := 2, songOffset := songOffset }

/-- A sample call with the scenario's request. -/
def beatlesConfig : Config Nat Nat Nat :=
  { L := Libs.sample, ds := sampleStore false, sp := beatlesParams 0 0 0 }

/-- A sample call asking for two songs, one album and one artist; the album search returns
one album together with an error when `failing`. -/
def sampleConfig (failing : Bool) : Config Nat Nat Nat :=
  { L := Libs.sample, ds := sampleStore failing,
    sp := { query := "Café*", artistCount := 1, artistOffset := 0, albumCount := 1,
            albumOffset := 0, songCount := 2, songOffset := 0 } }

/-- The steps of one `doSearch` invocation whose call completes before the `select`. -/
def completeBranch (c : Cat) : List Action :=
  [.branch c .entry, .branch c .invoke, .branch c .assign, .branch c .logResult,
   .branch c .recvDone]

/-- An execution without cancellation in which the three invocations run one after the
other and every call completes. -/
def sampleRun : List Action :=
  [.start, .goSong, .goAlbum, .goArtist] ++ completeBranch .song ++ completeBranch .album ++
    completeBranch .artist ++ [.wait, .summary, .ret]

/-- An execution of the scenario without cancellation: the album invocation returns at
its entry, the other two calls complete. -/
def beatlesRun : List Action :=
  [.start, .goSong, .goAlbum, .goArtist] ++ completeBranch .song ++ [.branch .album .entry] ++
    completeBranch .artist ++ [.wait, .summary, .ret]

/-- An execution in which the context is cancelled while the song call is in flight and the
other two invocations have not started running. -/
def cancelledRun : List Action :=
  [.start, .goSong, .goAlbum, .goArtist, .branch .song .entry, .branch .song .invoke,
   .cancel .canceled]

/-- An execution in which the context is cancelled while the song call is in flight; the
three waiting goroutines then return through `ctx.Done()`, and the abandoned song call
assigns its result after the summary line and before the return. -/
def abandonRun : List Action :=
  cancelledRun ++
    [.branch .song .recvCancel, .branch .album .entry, .branch .album .recvCancel,
     .branch .artist .entry, .branch .artist .recvCancel, .wait, .summary,
     .branch .song .assign, .ret]

/-- The state reached by `cancelledRun` in the sample call. -/
def cancelledState : State Nat Nat Nat :=
  (searchAll.run (sampleConfig false) cancelledRun).getD (State.init Nat Nat Nat)

/-! ## Lemmas -/

/-! ### The invariants hold in every reachable state -/

theorem Branch.idle_ok {T : Type} [Inhabited T] (s : searchFunc T) : (Branch.idle T).Ok s := by
  constructor <;> simp [Branch.idle, CallPc.wrote, CallPc.called, WaitPc.compat]

theorem doSearch.step_branch_ok {T : Type} [Inhabited T] {s : searchFunc T} {typ : String} {c : Bool}
    {a : Act} {b b1 : Branch T} {d : Bool} {l : List LogEntry}
    (h : doSearch.step s typ c a b = some (b1, d, l)) (hb : b.Ok s) : b1.Ok s := by
  obtain ⟨h1, h2, h3, h4, h5, h6⟩ := hb
  obtain ⟨q, off, size, pc, inner, result, calls, dones⟩ := b
  cases a <;> cases pc <;> cases inner <;>
    simp [doSearch.step, WaitPc.compat] at h h4 <;>
    (try split_ifs at h) <;>
    (try simp only [Option.some.injEq, Prod.mk.injEq] at h) <;>
    (try obtain ⟨rfl, rfl, rfl⟩ := h) <;>
    (try obtain ⟨hc, rfl, rfl, rfl⟩ := h) <;>
    constructor <;> simp_all [CallPc.wrote, CallPc.called, WaitPc.compat]

theorem doSearch.logLine_not_summary (typ q : String) (e : Error) :
    (doSearch.logLine typ q e).isSummary = false := by
  cases e <;> rfl

/-- Facts relating the state of a `doSearch` invocation before and after one of its steps. -/
theorem doSearch.step_frame {T : Type} [Inhabited T] {s : searchFunc T} {typ : String} {c : Bool}
    {a : Act} {b b1 : Branch T} {d : Bool} {l : List LogEntry}
    (h : doSearch.step s typ c a b = some (b1, d, l)) (hb : b.Ok s) :
    (b1.q = b.q ∧ b1.offset = b.offset ∧ b1.size = b.size) ∧
    b1.dones = b.dones + (if d then 1 else 0) ∧
    (b.pc ≠ .notSpawned ∧ b1.pc ≠ .notSpawned) ∧
    (b.pc = .returned → b1.pc = .returned) ∧
    (b1.pc = .returned → b.pc = .returned ∨ b1.size = 0 ∨ b1.inner = .finished ∨ c = true) ∧
    ¬ (b.pc = .returned ∧ b.inner.settled = true) ∧
    (b.pc = .returned → b1.inner.settled = false) ∧
    (∀ e ∈ l, e.isSummary = false) ∧
    b.pc.rank + b.inner.rank < b1.pc.rank + b1.inner.rank ∧
    (b1.inner.wrote = false → b.inner.wrote = false) := by
  obtain ⟨h1, h2, h3, h4, h5, h6⟩ := hb
  obtain ⟨q, off, size, pc, inner, result, calls, dones⟩ := b
  cases a <;> cases pc <;> cases inner <;>
    simp [doSearch.step, WaitPc.compat] at h h4 <;>
    (try split_ifs at h) <;>
    (try simp only [Option.some.injEq, Prod.mk.injEq] at h) <;>
    (try obtain ⟨rfl, rfl, rfl⟩ := h) <;>
    (try obtain ⟨hc, rfl, rfl, rfl⟩ := h) <;>
    simp_all [CallPc.settled, CallPc.rank, WaitPc.rank, CallPc.wrote,
      doSearch.logLine_not_summary]

@[simp] theorem MainPc.rank_start : MainPc.start.rank = 0 := rfl
@[simp] theorem MainPc.rank_added : MainPc.added.rank = 1 := rfl
@[simp] theorem MainPc.rank_spawned1 : MainPc.spawned1.rank = 2 := rfl
@[simp] theorem MainPc.rank_spawned2 : MainPc.spawned2.rank = 3 := rfl
@[simp] theorem MainPc.rank_waiting : MainPc.waiting.rank = 4 := rfl
@[simp] theorem MainPc.rank_joined : MainPc.joined.rank = 5 := rfl
@[simp] theorem MainPc.rank_logged : MainPc.logged.rank = 6 := rfl
@[simp] theorem MainPc.rank_returned : MainPc.returned.rank = 7 := rfl

theorem Branch.Linked.step_linked {T : Type} [Inhabited T] {s : searchFunc T} {typ q : String}
    {offset size : Int} {k rank : Nat} {c : Bool} {a : Act} {b b1 : Branch T} {d : Bool}
    {l : List LogEntry} (h : doSearch.step s typ c a b = some (b1, d, l))
    (hb : b.Linked s q offset size k rank c) : b1.Linked s q offset size k rank c := by
  obtain ⟨⟨f1, f2, f3⟩, -, ⟨f5, f6⟩, f7, f8, f9, -, -, -, -⟩ := doSearch.step_frame h hb.ok
  refine ⟨doSearch.step_branch_ok h hb.ok, ?_, ?_, ?_, ?_⟩
  · constructor
    · intro g; exact absurd g f6
    · intro g; exact absurd (hb.spawn.mpr g) f5
  · intro _
    rw [f1, f2, f3]
    exact hb.args f5
  · intro g; exact f7 (hb.joined g)
  · intro g
    rcases f8 g with g1 | g1 | g1 | g1
    · rcases hb.done g1 with g2 | g2 | g2
      · exfalso
        have : b.inner = .notStarted := by
          by_contra hn
          exact hb.ok.size_ne hn g2
        exact f9 ⟨g1, by rw [this]; rfl⟩
      · exact absurd ⟨g1, by rw [g2]; rfl⟩ f9
      · exact Or.inr (Or.inr g2)
    · exact Or.inl g1
    · exact Or.inr (Or.inl g1)
    · exact Or.inr (Or.inr g1)

theorem Branch.Linked.mono {T : Type} [Inhabited T] {s : searchFunc T} {q : String}
    {offset size : Int} {k rank rank1 : Nat} {c c1 : Bool} {b : Branch T}
    (hb : b.Linked s q offset size k rank c) (h1 : rank1 < k ↔ rank < k)
    (h2 : 5 ≤ rank1 → b.pc = .returned) (h3 : c = true → c1 = true) :
    b.Linked s q offset size k rank1 c1 :=
  ⟨hb.ok, hb.spawn.trans h1.symm, hb.args, h2, fun g => by
    rcases hb.done g with g1 | g1 | g1
    · exact Or.inl g1
    · exact Or.inr (Or.inl g1)
    · exact Or.inr (Or.inr (h3 g1))⟩

theorem Branch.Linked.go {T : Type} [Inhabited T] {s : searchFunc T} {q0 : String}
    {offset0 size0 : Int} {k rank : Nat} {c : Bool} {b : Branch T} (q : String)
    (offset size : Int) (hb : b.Linked s q0 offset0 size0 k rank c) (hr : rank < k) (hk : k < 5) :
    Branch.Linked s q offset size k k c
      { b with q := q, offset := offset, size := size, pc := .entry } := by
  have hpc : b.pc = .notSpawned := hb.spawn.mpr hr
  have hc := hb.ok.compat
  rw [hpc] at hc
  simp only [WaitPc.compat, decide_eq_true_eq] at hc
  have h1 := hb.ok.result_eq
  have h2 := hb.ok.calls_eq
  have h3 := hb.ok.dones_eq
  rw [hc] at h1 h2
  rw [hpc] at h3
  refine ⟨⟨?_, ?_, ?_, ?_, ?_, ?_⟩, ?_, ?_, ?_, ?_⟩
  · simpa [hc, CallPc.wrote] using h1
  · simpa [hc, CallPc.called] using h2
  · simpa using h3
  · simp [WaitPc.compat, hc]
  · intro g; exact absurd hc g
  · intro g; simp at g
  · simp
  · intro _; exact ⟨rfl, rfl, rfl⟩
  · intro g; omega
  · intro g; simp at g

theorem Branch.RetOk.step_retOk {T : Type} [Inhabited T] {s : searchFunc T} {typ q : String}
    {offset size : Int} {c : Bool} {a : Act} {b b1 : Branch T} {d : Bool} {l : List LogEntry}
    {x : Option T} (h : doSearch.step s typ c a b = some (b1, d, l)) (hb : b.Ok s)
    (hx : b.RetOk s q offset size x) : b1.RetOk s q offset size x := by
  intro v hv
  obtain ⟨-, -, -, -, -, -, -, -, -, f13⟩ := doSearch.step_frame h hb
  exact ⟨fun g => (hx v hv).1 (f13 g), (hx v hv).2⟩

theorem Branch.Linked.retOk {T : Type} [Inhabited T] {s : searchFunc T} {q : String}
    {offset size : Int} {k rank : Nat} {c : Bool} {b : Branch T}
    (hb : b.Linked s q offset size k rank c) (hp : b.pc = .returned) :
    b.RetOk s q offset size (some b.result) := by
  intro v hv
  cases hv
  obtain ⟨a1, a2, a3⟩ := hb.args (by rw [hp]; decide)
  have h := hb.ok.result_eq
  rw [a1, a2, a3] at h
  cases hw : b.inner.wrote with
  | false =>
    rw [hw] at h
    exact ⟨fun _ => h, Or.inl h⟩
  | true =>
    rw [hw] at h
    exact ⟨fun g => absurd g (by decide), Or.inr h⟩

theorem Branch.idle_linked {T : Type} [Inhabited T] (s : searchFunc T) (q : String)
    (offset size : Int) (k : Nat) (hk : 0 < k) :
    (Branch.idle T).Linked s q offset size k 0 false := by
  refine ⟨Branch.idle_ok s, ?_, ?_, ?_, ?_⟩ <;> simp [Branch.idle, hk]

theorem State.init_ok {α β γ : Type} (cfg : Config α β γ) : (State.init α β γ).Ok cfg := by
  constructor
  · exact Branch.idle_linked _ _ _ _ _ (by decide)
  · exact Branch.idle_linked _ _ _ _ _ (by decide)
  · exact Branch.idle_linked _ _ _ _ _ (by decide)
  all_goals simp [State.init, Branch.idle, State.Stable, Branch.RetOk]

theorem Branch.Linked.settled {T : Type} [Inhabited T] {s : searchFunc T} {q : String}
    {offset size : Int} {k rank : Nat} {b : Branch T}
    (hb : b.Linked s q offset size k rank false) (h : b.pc = .returned) :
    b.inner.settled = true := by
  rcases hb.done h with g | g | g
  · have : b.inner = .notStarted := by
      by_contra hn
      exact hb.ok.size_ne hn g
    rw [this]; rfl
  · rw [g]; rfl
  · exact absurd g (by decide)

theorem Branch.Ok.dones_le {T : Type} [Inhabited T] {s : searchFunc T} {b : Branch T}
    (hb : b.Ok s) : b.dones ≤ 1 := by
  rw [hb.dones_eq]; split <;> omega

theorem Branch.Ok.returned_of_dones {T : Type} [Inhabited T] {s : searchFunc T} {b : Branch T}
    (hb : b.Ok s) (h : b.dones = 1) : b.pc = .returned := by
  by_contra hn
  have := hb.dones_eq
  rw [if_neg hn] at this
  omega

theorem State.Ok.all_returned {α β γ : Type} {cfg : Config α β γ} {st : State α β γ}
    (hs : st.Ok cfg) (hp : st.pc ≠ .start) (hw : st.wg = 0) :
    st.song.pc = .returned ∧ st.album.pc = .returned ∧ st.artist.pc = .returned := by
  have h := hs.wg_eq
  rw [if_neg hp, hw] at h
  have h1 := hs.song.ok.dones_le
  have h2 := hs.album.ok.dones_le
  have h3 := hs.artist.ok.dones_le
  exact ⟨hs.song.ok.returned_of_dones (by omega), hs.album.ok.returned_of_dones (by omega),
    hs.artist.ok.returned_of_dones (by omega)⟩

theorem filter_summary_append {log l : List LogEntry} (h : ∀ e ∈ l, e.isSummary = false) :
    (log ++ l).filter LogEntry.isSummary = log.filter LogEntry.isSummary := by
  rw [List.filter_append]
  have : l.filter LogEntry.isSummary = [] := by
    induction l with
    | nil => rfl
    | cons x xs ih =>
      rw [List.filter_cons, h x (List.mem_cons_self _ _)]
      exact ih (fun e he => h e (List.mem_cons_of_mem _ he))
  rw [this, List.append_nil]

theorem searchAll.step_ok {α β γ : Type} {cfg : Config α β γ} {a : Action}
    {st st1 : State α β γ} (h : searchAll.step cfg a st = some st1) (hs : st.Ok cfg) :
    st1.Ok cfg := by
  cases a with
  | start =>
    simp only [searchAll.step] at h
    split_ifs at h with g
    cases h
    have hr : st.pc.rank = 0 := by rw [g]; rfl
    refine ⟨hs.song.mono ?_ ?_ id, hs.album.mono ?_ ?_ id, hs.artist.mono ?_ ?_ id, ?_, ?_, ?_,
      hs.ret_eq, hs.retSong, hs.retAlbum, hs.retArtist, ?_, ?_⟩
    all_goals simp only [MainPc.rank_added, hr]
    all_goals try omega
    · intro _; trivial
    · have := hs.wg_eq
      rw [if_pos g] at this
      simp only [reduceCtorEq, if_false]
      omega
    · have := hs.ret_iff
      simp only [g, reduceCtorEq, iff_false] at this ⊢
      exact this
    · intro _; exact hs.sum_none (by omega)
  | goSong =>
    simp only [searchAll.step] at h
    split_ifs at h with g
    have hr : st.pc.rank = 1 := by rw [g]; rfl
    have hq := hs.q_eq (by rw [g]; decide)
    rw [hq] at h
    cases h
    have hgo := hs.song.go (normQuery cfg.L cfg.sp.query) cfg.sp.songOffset cfg.sp.songCount
      (by omega) (by decide)
    refine ⟨hgo, hs.album.mono ?_ ?_ id, hs.artist.mono ?_ ?_ id, ?_, ?_, ?_, hs.ret_eq,
      hs.retSong, hs.retAlbum, hs.retArtist, ?_, ?_⟩
    all_goals simp only [MainPc.rank_spawned1, hr]
    all_goals try omega
    · intro _; trivial
    · have := hs.wg_eq
      simpa [g] using this
    · have := hs.ret_iff
      simp only [g, reduceCtorEq, iff_false] at this ⊢
      exact this
    · intro _; exact hs.sum_none (by omega)
  | goAlbum =>
    simp only [searchAll.step] at h
    split_ifs at h with g
    have hr : st.pc.rank = 2 := by rw [g]; rfl
    have hq := hs.q_eq (by rw [g]; decide)
    rw [hq] at h
    cases h
    have hgo := hs.album.go (normQuery cfg.L cfg.sp.query) cfg.sp.albumOffset cfg.sp.albumCount
      (by omega) (by decide)
    refine ⟨hs.song.mono ?_ ?_ id, hgo, hs.artist.mono ?_ ?_ id, ?_, ?_, ?_, hs.ret_eq,
      hs.retSong, hs.retAlbum, hs.retArtist, ?_, ?_⟩
    all_goals simp only [MainPc.rank_spawned2, hr]
    all_goals try omega
    · intro _; trivial
    · have := hs.wg_eq
      simpa [g] using this
    · have := hs.ret_iff
      simp only [g, reduceCtorEq, iff_false] at this ⊢
      exact this
    · intro _; exact hs.sum_none (by omega)
  | goArtist =>
    simp only [searchAll.step] at h
    split_ifs at h with g
    have hr : st.pc.rank = 3 := by rw [g]; rfl
    have hq := hs.q_eq (by rw [g]; decide)
    rw [hq] at h
    cases h
    have hgo := hs.artist.go (normQuery cfg.L cfg.sp.query) cfg.sp.artistOffset cfg.sp.artistCount
      (by omega) (by decide)
    refine ⟨hs.song.mono ?_ ?_ id, hs.album.mono ?_ ?_ id, hgo, ?_, ?_, ?_, hs.ret_eq,
      hs.retSong, hs.retAlbum, hs.retArtist, ?_, ?_⟩
    all_goals simp only [MainPc.rank_waiting, hr]
    all_goals try omega
    · intro _; trivial
    · have := hs.wg_eq
      simpa [g] using this
    · have := hs.ret_iff
      simp only [g, reduceCtorEq, iff_false] at this ⊢
      exact this
    · intro _; exact hs.sum_none (by omega)
  | wait =>
    simp only [searchAll.step] at h
    split_ifs at h with g
    cases h
    obtain ⟨g, hw⟩ := g
    have hr : st.pc.rank = 4 := by rw [g]; rfl
    have hq := hs.q_eq (by rw [g]; decide)
    obtain ⟨r1, r2, r3⟩ := hs.all_returned (by rw [g]; decide) hw
    refine ⟨hs.song.mono ?_ (fun _ => r1) id, hs.album.mono ?_ (fun _ => r2) id,
      hs.artist.mono ?_ (fun _ => r3) id, ?_, ?_, ?_, hs.ret_eq, hs.retSong, hs.retAlbum,
      hs.retArtist, ?_, ?_⟩
    all_goals simp only [MainPc.rank_joined, hr]
    all_goals try omega
    · intro _; exact hq
    · have := hs.wg_eq
      simpa [g] using this
    · have := hs.ret_iff
      simp only [g, reduceCtorEq, iff_false] at this ⊢
      exact this
    · intro _; exact hs.sum_none (by omega)
  | summary =>
    simp only [searchAll.step] at h
    split_ifs at h with g
    cases h
    have hr : st.pc.rank = 5 := by rw [g]; rfl
    have hq := hs.q_eq (by rw [g]; decide)
    have r1 := hs.song.joined (by omega)
    have r2 := hs.album.joined (by omega)
    have r3 := hs.artist.joined (by omega)
    have hf := hs.sum_none (by omega)
    refine ⟨hs.song.mono ?_ (fun _ => r1) id, hs.album.mono ?_ (fun _ => r2) id,
      hs.artist.mono ?_ (fun _ => r3) id, ?_, ?_, ?_, hs.ret_eq, hs.retSong, hs.retAlbum,
      hs.retArtist, ?_, ?_⟩
    all_goals simp only [MainPc.rank_logged, hr]
    all_goals try omega
    · intro _; exact hq
    · have := hs.wg_eq
      simpa [g] using this
    · have := hs.ret_iff
      simp only [g, reduceCtorEq, iff_false] at this ⊢
      exact this
    · intro _
      rw [List.filter_append, hf]
      cases hc : st.ctxErr with
      | none =>
        left
        have s1 := hs.song
        have s2 := hs.album
        have s3 := hs.artist
        rw [hc] at s1 s2 s3
        exact ⟨⟨s1.settled r1, s2.settled r2, s3.settled r3⟩, rfl⟩
      | some e =>
        right
        exact ⟨e, rfl, rfl⟩
  | ret =>
    simp only [searchAll.step] at h
    split_ifs at h with g
    cases h
    have hr : st.pc.rank = 6 := by rw [g]; rfl
    have hq := hs.q_eq (by rw [g]; decide)
    have r1 := hs.song.joined (by omega)
    have r2 := hs.album.joined (by omega)
    have r3 := hs.artist.joined (by omega)
    refine ⟨hs.song.mono ?_ (fun _ => r1) id, hs.album.mono ?_ (fun _ => r2) id,
      hs.artist.mono ?_ (fun _ => r3) id, ?_, ?_, ?_, ?_, hs.song.retOk r1, hs.album.retOk r2,
      hs.artist.retOk r3, ?_, ?_⟩
    all_goals simp only [MainPc.rank_returned, hr]
    all_goals try omega
    · intro _; exact hq
    · have := hs.wg_eq
      simpa [g] using this
    · simp
    · intro r hr _
      simp only [Option.some.injEq] at hr
      exact hr.symm
    · intro _
      exact hs.sum_one (by omega)
  | cancel e =>
    simp only [searchAll.step] at h
    split_ifs at h with g
    cases h
    refine ⟨hs.song.mono Iff.rfl hs.song.joined (fun _ => rfl),
      hs.album.mono Iff.rfl hs.album.joined (fun _ => rfl),
      hs.artist.mono Iff.rfl hs.artist.joined (fun _ => rfl), hs.q_eq, hs.wg_eq, hs.ret_iff,
      hs.ret_eq, hs.retSong, hs.retAlbum, hs.retArtist, hs.sum_none, ?_⟩
    intro hr
    rcases hs.sum_one hr with h1 | ⟨e1, h1, _⟩
    · exact Or.inl h1
    · rw [g] at h1; cases h1
  | branch c a =>
    cases c with
    | song =>
      simp only [searchAll.step, Option.map_eq_some'] at h
      obtain ⟨⟨b1, d, l⟩, hb, rfl⟩ := h
      obtain ⟨-, f4, -, -, -, f9, f10, f11, -, -⟩ := doSearch.step_frame hb hs.song.ok
      refine ⟨hs.song.step_linked hb, hs.album, hs.artist, hs.q_eq, ?_, hs.ret_iff, ?_,
        hs.retSong.step_retOk hb hs.song.ok, hs.retAlbum, hs.retArtist, ?_, ?_⟩
      · have := hs.wg_eq
        simp only [State.absorb]
        rw [f4, this]
        cases d <;> simp
        omega
      · intro r hr hst
        have hr : st.ret = some r := hr
        have hp := hs.ret_iff.mp (by rw [hr]; rfl)
        have := f10 (hs.song.joined (by rw [hp]; decide))
        exact absurd hst.1 (by rw [this]; decide)
      · intro hr
        have hr : st.pc.rank < 6 := hr
        simp only [State.absorb]
        rw [filter_summary_append f11]
        exact hs.sum_none hr
      · intro hr
        have hr : 6 ≤ st.pc.rank := hr
        rcases hs.sum_one hr with ⟨hst, _⟩ | ⟨e, h1, h2⟩
        · exact absurd ⟨hs.song.joined (by omega), hst.1⟩ f9
        · right
          refine ⟨e, h1, ?_⟩
          simp only [State.absorb]
          rw [filter_summary_append f11]
          exact h2
    | album =>
      simp only [searchAll.step, Option.map_eq_some'] at h
      obtain ⟨⟨b1, d, l⟩, hb, rfl⟩ := h
      obtain ⟨-, f4, -, -, -, f9, f10, f11, -, -⟩ := doSearch.step_frame hb hs.album.ok
      refine ⟨hs.song, hs.album.step_linked hb, hs.artist, hs.q_eq, ?_, hs.ret_iff, ?_,
        hs.retSong, hs.retAlbum.step_retOk hb hs.album.ok, hs.retArtist, ?_, ?_⟩
      · have := hs.wg_eq
        simp only [State.absorb]
        rw [f4, this]
        cases d <;> simp
        omega
      · intro r hr hst
        have hr : st.ret = some r := hr
        have hp := hs.ret_iff.mp (by rw [hr]; rfl)
        have := f10 (hs.album.joined (by rw [hp]; decide))
        exact absurd hst.2.1 (by rw [this]; decide)
      · intro hr
        have hr : st.pc.rank < 6 := hr
        simp only [State.absorb]
        rw [filter_summary_append f11]
        exact hs.sum_none hr
      · intro hr
        have hr : 6 ≤ st.pc.rank := hr
        rcases hs.sum_one hr with ⟨hst, _⟩ | ⟨e, h1, h2⟩
        · exact absurd ⟨hs.album.joined (by omega), hst.2.1⟩ f9
        · right
          refine ⟨e, h1, ?_⟩
          simp only [State.absorb]
          rw [filter_summary_append f11]
          exact h2
    | artist =>
      simp only [searchAll.step, Option.map_eq_some'] at h
      obtain ⟨⟨b1, d, l⟩, hb, rfl⟩ := h
      obtain ⟨-, f4, -, -, -, f9, f10, f11, -, -⟩ := doSearch.step_frame hb hs.artist.ok
      refine ⟨hs.song, hs.album, hs.artist.step_linked hb, hs.q_eq, ?_, hs.ret_iff, ?_,
        hs.retSong, hs.retAlbum, hs.retArtist.step_retOk hb hs.artist.ok, ?_, ?_⟩
      · have := hs.wg_eq
        simp only [State.absorb]
        rw [f4, this]
        cases d <;> simp
        omega
      · intro r hr hst
        have hr : st.ret = some r := hr
        have hp := hs.ret_iff.mp (by rw [hr]; rfl)
        have := f10 (hs.artist.joined (by rw [hp]; decide))
        exact absurd hst.2.2 (by rw [this]; decide)
      · intro hr
        have hr : st.pc.rank < 6 := hr
        simp only [State.absorb]
        rw [filter_summary_append f11]
        exact hs.sum_none hr
      · intro hr
        have hr : 6 ≤ st.pc.rank := hr
        rcases hs.sum_one hr with ⟨hst, _⟩ | ⟨e, h1, h2⟩
        · exact absurd ⟨hs.artist.joined (by omega), hst.2.2⟩ f9
        · right
          refine ⟨e, h1, ?_⟩
          simp only [State.absorb]
          rw [filter_summary_append f11]
          exact h2

/-! ### Every step consumes fuel; the scheduler reaches the return -/

theorem WaitPc.rank_le_three (p : WaitPc) : p.rank ≤ 3 := by cases p <;> decide
theorem CallPc.rank_le_five (p : CallPc) : p.rank ≤ 5 := by cases p <;> decide
theorem MainPc.rank_le_seven (p : MainPc) : p.rank ≤ 7 := by cases p <;> decide

theorem Branch.fuel_step {T : Type} [Inhabited T] {s : searchFunc T} {typ : String} {c : Bool}
    {a : Act} {b b1 : Branch T} {d : Bool} {l : List LogEntry}
    (h : doSearch.step s typ c a b = some (b1, d, l)) (hb : b.Ok s) : b1.fuel < b.fuel := by
  obtain ⟨-, -, -, -, -, -, -, -, f12, -⟩ := doSearch.step_frame h hb
  have h1 := b1.pc.rank_le_three
  have h2 := b1.inner.rank_le_five
  unfold Branch.fuel
  omega

theorem searchAll.step_fuel {α β γ : Type} {cfg : Config α β γ} {a : Action}
    {st st1 : State α β γ} (h : searchAll.step cfg a st = some st1) (hs : st.Ok cfg) :
    st1.fuel < st.fuel := by
  cases a with
  | branch c a =>
    cases c <;> simp only [searchAll.step, Option.map_eq_some'] at h <;>
      obtain ⟨⟨b1, d, l⟩, hb, rfl⟩ := h
    · have := Branch.fuel_step hb hs.song.ok
      simp only [State.fuel, State.absorb]; omega
    · have := Branch.fuel_step hb hs.album.ok
      simp only [State.fuel, State.absorb]; omega
    · have := Branch.fuel_step hb hs.artist.ok
      simp only [State.fuel, State.absorb]; omega
  | cancel e =>
    simp only [searchAll.step] at h
    split_ifs at h with g
    cases h
    simp [State.fuel, g]
  | start =>
    simp only [searchAll.step] at h
    split_ifs at h with g
    cases h
    simp [State.fuel, g]
  | goSong =>
    simp only [searchAll.step] at h
    split_ifs at h with g
    cases h
    have := hs.song.spawn.mpr (by rw [g]; decide)
    simp only [State.fuel, g, Branch.fuel, this]
    simp [WaitPc.rank]
    omega
  | goAlbum =>
    simp only [searchAll.step] at h
    split_ifs at h with g
    cases h
    have := hs.album.spawn.mpr (by rw [g]; decide)
    simp only [State.fuel, g, Branch.fuel, this]
    simp [WaitPc.rank]
    omega
  | goArtist =>
    simp only [searchAll.step] at h
    split_ifs at h with g
    cases h
    have := hs.artist.spawn.mpr (by rw [g]; decide)
    simp only [State.fuel, g, Branch.fuel, this]
    simp [WaitPc.rank]
    omega
  | wait =>
    simp only [searchAll.step] at h
    split_ifs at h with g
    cases h
    simp [State.fuel, g.1]
  | summary =>
    simp only [searchAll.step] at h
    split_ifs at h with g
    cases h
    simp [State.fuel, g]
  | ret =>
    simp only [searchAll.step] at h
    split_ifs at h with g
    cases h
    simp [State.fuel, g]

theorem searchAll.runFrom_ok {α β γ : Type} {cfg : Config α β γ} {acts : List Action}
    {st st1 : State α β γ} (hs : st.Ok cfg) (h : searchAll.runFrom cfg acts st = some st1) :
    st1.Ok cfg := by
  induction acts generalizing st with
  | nil =>
    simp only [searchAll.runFrom, Option.some.injEq] at h
    exact h ▸ hs
  | cons a as ih =>
    simp only [searchAll.runFrom, Option.bind_eq_some] at h
    obtain ⟨st2, h1, h2⟩ := h
    exact ih (searchAll.step_ok h1 hs) h2

theorem searchAll.run_ok {α β γ : Type} {cfg : Config α β γ} {acts : List Action}
    {st : State α β γ} (h : searchAll.run cfg acts = some st) : st.Ok cfg :=
  searchAll.runFrom_ok (State.init_ok cfg) h

theorem searchAll.runFrom_append {α β γ : Type} (cfg : Config α β γ) (as bs : List Action)
    (st : State α β γ) :
    searchAll.runFrom cfg (as ++ bs) st =
      (searchAll.runFrom cfg as st).bind (searchAll.runFrom cfg bs) := by
  induction as generalizing st with
  | nil => rfl
  | cons a as ih =>
    simp only [List.cons_append, searchAll.runFrom]
    cases searchAll.step cfg a st with
    | none => rfl
    | some st2 => exact ih st2

theorem searchAll.runFrom_fuel {α β γ : Type} {cfg : Config α β γ} {acts : List Action}
    {st st1 : State α β γ} (hs : st.Ok cfg) (h : searchAll.runFrom cfg acts st = some st1) :
    acts.length + st1.fuel ≤ st.fuel := by
  induction acts generalizing st with
  | nil =>
    simp only [searchAll.runFrom, Option.some.injEq] at h
    simp [h]
  | cons a as ih =>
    simp only [searchAll.runFrom, Option.bind_eq_some] at h
    obtain ⟨st2, h1, h2⟩ := h
    have := ih (searchAll.step_ok h1 hs) h2
    have := searchAll.step_fuel h1 hs
    simp only [List.length_cons]
    omega

theorem searchAll.run_length {α β γ : Type} {cfg : Config α β γ} {acts : List Action}
    {st : State α β γ} (h : searchAll.run cfg acts = some st) : acts.length + st.fuel ≤ 32 :=
  searchAll.runFrom_fuel (State.init_ok cfg) h

theorem Branch.next_step_enabled {T : Type} [Inhabited T] {s : searchFunc T} (typ : String)
    {c : Bool} {a : Act} {b : Branch T} (h : b.next c = some a) :
    ∃ r, doSearch.step s typ c a b = some r := by
  obtain ⟨q, off, size, pc, inner, result, calls, dones⟩ := b
  cases pc <;> cases c <;> cases inner <;> simp [Branch.next] at h <;> subst h <;>
    simp [doSearch.step] <;> split <;> simp

theorem Branch.next_none_done {T : Type} [Inhabited T] {s : searchFunc T} {c : Bool} {b : Branch T}
    (hb : b.Ok s) (h : b.next c = none) : b.pc = .notSpawned ∨ b.pc = .returned := by
  have hc := hb.compat
  obtain ⟨q, off, size, pc, inner, result, calls, dones⟩ := b
  cases pc <;> cases c <;> cases inner <;> simp [Branch.next, WaitPc.compat] at h hc ⊢

theorem Branch.next_cancelled {T : Type} {a : Act} {b : Branch T} (h : b.next true = some a) :
    a = .entry ∨ a = .recvCancel := by
  obtain ⟨q, off, size, pc, inner, result, calls, dones⟩ := b
  cases pc <;> simp [Branch.next] at h <;> simp [h]

theorem State.next_none {α β γ : Type} {st : State α β γ} (h : st.next = none) :
    st.pc = .returned := by
  unfold State.next at h
  split at h <;> first | assumption | exact absurd h (by simp)

theorem State.nextWaiting_not_cancel {α β γ : Type} (st : State α β γ) :
    st.nextWaiting.isCancel = false := by
  unfold State.nextWaiting
  split <;> rfl

theorem State.next_not_cancel {α β γ : Type} {st : State α β γ} {a : Action}
    (h : st.next = some a) : a.isCancel = false := by
  unfold State.next at h
  split at h <;> simp only [Option.some.injEq, reduceCtorEq] at h <;> subst h <;>
    first | rfl | exact State.nextWaiting_not_cancel st

theorem State.nextWaiting_not_call {α β γ : Type} {st : State α β γ}
    (hc : st.ctxErr.isSome = true) : st.nextWaiting.byCall = false := by
  unfold State.nextWaiting
  rw [hc]
  split
  · next a1 h1 => rcases Branch.next_cancelled h1 with g | g <;> subst g <;> rfl
  · next a1 h1 => rcases Branch.next_cancelled h1 with g | g <;> subst g <;> rfl
  · next a1 h1 => rcases Branch.next_cancelled h1 with g | g <;> subst g <;> rfl
  · rfl

theorem State.next_not_call {α β γ : Type} {st : State α β γ} {a : Action}
    (hc : st.ctxErr.isSome = true) (h : st.next = some a) : a.byCall = false := by
  unfold State.next at h
  split at h <;> simp only [Option.some.injEq, reduceCtorEq] at h <;> subst h <;>
    first | rfl | exact State.nextWaiting_not_call hc

theorem State.nextWaiting_enabled {α β γ : Type} {cfg : Config α β γ} {st : State α β γ}
    (hs : st.Ok cfg) (hp : st.pc = .waiting) :
    ∃ st1, searchAll.step cfg st.nextWaiting st = some st1 := by
  unfold State.nextWaiting
  split
  · next a1 h1 =>
    obtain ⟨r, hr⟩ := Branch.next_step_enabled (s := cfg.ds.MediaFile) "MediaFiles" h1
    exact ⟨_, by simp only [searchAll.step, hr]; rfl⟩
  · next a1 _ h2 =>
    obtain ⟨r, hr⟩ := Branch.next_step_enabled (s := cfg.ds.Album) "Albums" h2
    exact ⟨_, by simp only [searchAll.step, hr]; rfl⟩
  · next a1 _ _ h3 =>
    obtain ⟨r, hr⟩ := Branch.next_step_enabled (s := cfg.ds.Artist) "Artists" h3
    exact ⟨_, by simp only [searchAll.step, hr]; rfl⟩
  · next h1 h2 h3 =>
    have hr : st.pc.rank = 4 := by rw [hp]; rfl
    have e1 : st.song.pc = .returned := by
      rcases Branch.next_none_done hs.song.ok h1 with g | g
      · have := hs.song.spawn.mp g; omega
      · exact g
    have e2 : st.album.pc = .returned := by
      rcases Branch.next_none_done hs.album.ok h2 with g | g
      · have := hs.album.spawn.mp g; omega
      · exact g
    have e3 : st.artist.pc = .returned := by
      rcases Branch.next_none_done hs.artist.ok h3 with g | g
      · have := hs.artist.spawn.mp g; omega
      · exact g
    have hw := hs.wg_eq
    rw [hs.song.ok.dones_eq, hs.album.ok.dones_eq, hs.artist.ok.dones_eq, e1, e2, e3,
      hp] at hw
    simp at hw
    exact ⟨_, by simp only [searchAll.step]; rw [if_pos ⟨hp, hw⟩]⟩

theorem State.next_enabled {α β γ : Type} {cfg : Config α β γ} {st : State α β γ} {a : Action}
    (hs : st.Ok cfg) (h : st.next = some a) : ∃ st1, searchAll.step cfg a st = some st1 := by
  unfold State.next at h
  split at h <;> simp only [Option.some.injEq, reduceCtorEq] at h <;> subst h
  case h_5 hp => exact State.nextWaiting_enabled hs hp
  all_goals exact ⟨_, by simp only [searchAll.step]; rw [if_pos (by assumption)]⟩

theorem searchAll.step_ctxErr {α β γ : Type} {cfg : Config α β γ} {a : Action}
    {st st1 : State α β γ} (h : searchAll.step cfg a st = some st1) (ha : a.isCancel = false) :
    st1.ctxErr = st.ctxErr := by
  cases a with
  | branch c a =>
    cases c <;> simp only [searchAll.step, Option.map_eq_some'] at h <;>
      obtain ⟨⟨b1, d, l⟩, -, rfl⟩ := h <;> rfl
  | cancel e => simp [Action.isCancel] at ha
  | _ =>
    simp only [searchAll.step] at h
    split_ifs at h
    cases h
    rfl

theorem searchAll.finish_run {α β γ : Type} {cfg : Config α β γ} (n : Nat) {st : State α β γ}
    (hs : st.Ok cfg) (hn : st.fuel ≤ n) :
    ∃ st1, searchAll.runFrom cfg (searchAll.finish cfg n st) st = some st1 ∧
      st1.pc = .returned ∧ st1.ctxErr = st.ctxErr := by
  induction n generalizing st with
  | zero =>
    refine ⟨st, rfl, ?_, rfl⟩
    cases hn1 : st.next with
    | none => exact State.next_none hn1
    | some a =>
      obtain ⟨st1, h1⟩ := State.next_enabled hs hn1
      have := searchAll.step_fuel h1 hs
      omega
  | succ n ih =>
    cases hn1 : st.next with
    | none =>
      refine ⟨st, ?_, State.next_none hn1, rfl⟩
      simp only [searchAll.finish, hn1, searchAll.runFrom]
    | some a =>
      obtain ⟨st1, h1⟩ := State.next_enabled hs hn1
      have hf := searchAll.step_fuel h1 hs
      obtain ⟨st2, h2, h3, h4⟩ := ih (searchAll.step_ok h1 hs) (by omega)
      refine ⟨st2, ?_, h3, ?_⟩
      · simp only [searchAll.finish, hn1, h1, searchAll.runFrom, Option.some_bind]
        exact h2
      · rw [h4]
        exact searchAll.step_ctxErr h1 (State.next_not_cancel hn1)

theorem searchAll.finish_not_call {α β γ : Type} {cfg : Config α β γ} (n : Nat)
    {st : State α β γ} (hc : st.ctxErr.isSome = true) :
    ∀ a ∈ searchAll.finish cfg n st, a.byCall = false := by
  induction n generalizing st with
  | zero => intro a ha; simp [searchAll.finish] at ha
  | succ n ih =>
    intro a ha
    unfold searchAll.finish at ha
    split at ha
    · simp at ha
    · next a1 hn1 =>
      split at ha
      · simp at ha
      · next st1 h1 =>
        rcases List.mem_cons.mp ha with g | g
        · subst g
          exact State.next_not_call hc hn1
        · have := searchAll.step_ctxErr h1 (State.next_not_cancel hn1)
          exact ih (by rw [this]; exact hc) a g

/-! ### Consequences of the invariants -/

theorem Branch.Linked.spawned_of_started {T : Type} [Inhabited T] {s : searchFunc T}
    {q : String} {offset size : Int} {k rank : Nat} {c : Bool} {b : Branch T}
    (hb : b.Linked s q offset size k rank c) (h : b.inner ≠ .notStarted) :
    b.pc ≠ .notSpawned := by
  intro g
  have hc := hb.ok.compat
  rw [g] at hc
  simp only [WaitPc.compat, decide_eq_true_eq] at hc
  exact h hc

theorem Branch.Linked.calls {T : Type} [Inhabited T] {s : searchFunc T}
    {q : String} {offset size : Int} {k rank : Nat} {c : Bool} {b : Branch T}
    (hb : b.Linked s q offset size k rank c) :
    b.calls = if b.inner.called then [(q, offset, size)] else [] := by
  have h := hb.ok.calls_eq
  cases hw : b.inner.called with
  | false => rw [hw] at h; simpa using h
  | true =>
    rw [hw] at h
    obtain ⟨a1, a2, a3⟩ := hb.args (hb.spawned_of_started (by intro g; rw [g] at hw; cases hw))
    rw [a1, a2, a3] at h
    simpa using h

theorem Branch.Linked.result {T : Type} [Inhabited T] {s : searchFunc T}
    {q : String} {offset size : Int} {k rank : Nat} {c : Bool} {b : Branch T}
    (hb : b.Linked s q offset size k rank c) :
    b.result = if b.inner.wrote then (s q offset size).1 else default := by
  have h := hb.ok.result_eq
  cases hw : b.inner.wrote with
  | false => rw [hw] at h; simpa using h
  | true =>
    rw [hw] at h
    obtain ⟨a1, a2, a3⟩ := hb.args (hb.spawned_of_started (by intro g; rw [g] at hw; cases hw))
    rw [a1, a2, a3] at h
    simpa using h

theorem Branch.Linked.idle_of_zero {T : Type} [Inhabited T] {s : searchFunc T}
    {q : String} {offset size : Int} {k rank : Nat} {c : Bool} {b : Branch T}
    (hb : b.Linked s q offset size k rank c) (h0 : size = 0) : b.inner = .notStarted := by
  by_contra hn
  have := (hb.args (hb.spawned_of_started hn)).2.2
  exact hb.ok.size_ne hn (this.trans h0)

theorem Branch.Linked.finished {T : Type} [Inhabited T] {s : searchFunc T}
    {q : String} {offset size : Int} {k rank : Nat} {b : Branch T}
    (hb : b.Linked s q offset size k rank false) (hp : b.pc = .returned) (h0 : size ≠ 0) :
    b.inner = .finished := by
  have hz := (hb.args (by rw [hp]; decide)).2.2
  rcases hb.done hp with g | g | g
  · exact absurd (hz ▸ g) h0
  · exact g
  · exact absurd g (by decide)

theorem Branch.Linked.result_final {T : Type} [Inhabited T] {s : searchFunc T}
    {q : String} {offset size : Int} {k rank : Nat} {b : Branch T}
    (hb : b.Linked s q offset size k rank false) (hp : b.pc = .returned) :
    b.result = if size = 0 then default else (s q offset size).1 := by
  rw [hb.result]
  by_cases h0 : size = 0
  · rw [hb.idle_of_zero h0, if_pos h0]; rfl
  · rw [hb.finished hp h0, if_neg h0]; rfl

/-- The value `searchAll` returns when the context was not cancelled. -/
theorem State.Ok.ret_not_cancelled {α β γ : Type} {cfg : Config α β γ} {st : State α β γ}
    (hs : st.Ok cfg) (hc : st.ctxErr = none) {r : List α × List β × List γ}
    (hr : st.ret = some r) :
    r = (if cfg.sp.songCount = 0 then []
          else (cfg.ds.MediaFile (normQuery cfg.L cfg.sp.query) cfg.sp.songOffset
            cfg.sp.songCount).1,
         if cfg.sp.albumCount = 0 then []
          else (cfg.ds.Album (normQuery cfg.L cfg.sp.query) cfg.sp.albumOffset
            cfg.sp.albumCount).1,
         if cfg.sp.artistCount = 0 then []
          else (cfg.ds.Artist (normQuery cfg.L cfg.sp.query) cfg.sp.artistOffset
            cfg.sp.artistCount).1) := by
  have hp := hs.ret_iff.mp (by rw [hr]; rfl)
  have s1 := hs.song
  have s2 := hs.album
  have s3 := hs.artist
  rw [hc] at s1 s2 s3
  have r1 := s1.joined (by rw [hp]; decide)
  have r2 := s2.joined (by rw [hp]; decide)
  have r3 := s3.joined (by rw [hp]; decide)
  rw [hs.ret_eq r hr ⟨s1.settled r1, s2.settled r2, s3.settled r3⟩, s1.result_final r1,
    s2.result_final r2, s3.result_final r3]
  rfl

/-- From every reachable state the call can be completed, without cancelling the context
and, when the context is already cancelled, without any step of a data-source call. -/
theorem searchAll.exists_return {α β γ : Type} {cfg : Config α β γ} {st : State α β γ}
    (hs : st.Ok cfg) :
    ∃ more st1 r, searchAll.runFrom cfg more st = some st1 ∧ st1.ret = some r ∧
      st1.ctxErr = st.ctxErr ∧ (st.ctxErr.isSome = true → ∀ a ∈ more, a.byCall = false) := by
  obtain ⟨st1, h1, h2, h3⟩ := searchAll.finish_run st.fuel hs (le_refl _)
  have hok := searchAll.runFrom_ok hs h1
  have : st1.ret.isSome = true := hok.ret_iff.mpr h2
  obtain ⟨r, hr⟩ := Option.isSome_iff_exists.mp this
  exact ⟨_, st1, r, h1, hr, h3, fun hc => searchAll.finish_not_call _ hc⟩

/-- The calls made for a category: none, or the one call with the arguments of `searchAll`. -/
theorem State.Ok.calls_cat {α β γ : Type} {cfg : Config α β γ} {st : State α β γ}
    (hs : st.Ok cfg) (c : Cat) :
    st.calls c = if (st.callPc c).called then
      [(normQuery cfg.L cfg.sp.query, cfg.sp.offset c, cfg.sp.count c)] else [] := by
  cases c
  · exact hs.song.calls
  · exact hs.album.calls
  · exact hs.artist.calls

theorem State.Ok.dones_cat {α β γ : Type} {cfg : Config α β γ} {st : State α β γ}
    (hs : st.Ok cfg) (c : Cat) :
    st.dones c = if st.waitPc c = .returned then 1 else 0 := by
  cases c
  · exact hs.song.ok.dones_eq
  · exact hs.album.ok.dones_eq
  · exact hs.artist.ok.dones_eq

theorem State.Ok.joined_cat {α β γ : Type} {cfg : Config α β γ} {st : State α β γ}
    (hs : st.Ok cfg) (h : 5 ≤ st.pc.rank) (c : Cat) : st.waitPc c = .returned := by
  cases c
  · exact hs.song.joined h
  · exact hs.album.joined h
  · exact hs.artist.joined h

theorem State.Ok.started_cat {α β γ : Type} {cfg : Config α β γ} {st : State α β γ}
    (hs : st.Ok cfg) (c : Cat) (hp : st.waitPc c = .returned) (h0 : cfg.sp.count c ≠ 0) :
    st.callPc c ≠ .notStarted := by
  intro g
  cases c
  · have hz := (hs.song.args (by rw [show st.song.pc = _ from hp]; decide)).2.2
    exact h0 (hz.symm.trans (hs.song.ok.size_eq hp g))
  · have hz := (hs.album.args (by rw [show st.album.pc = _ from hp]; decide)).2.2
    exact h0 (hz.symm.trans (hs.album.ok.size_eq hp g))
  · have hz := (hs.artist.args (by rw [show st.artist.pc = _ from hp]; decide)).2.2
    exact h0 (hz.symm.trans (hs.artist.ok.size_eq hp g))

theorem State.Ok.finished_cat {α β γ : Type} {cfg : Config α β γ} {st : State α β γ}
    (hs : st.Ok cfg) (hc : st.ctxErr = none) (c : Cat) (hp : st.waitPc c = .returned)
    (h0 : cfg.sp.count c ≠ 0) : st.callPc c = .finished := by
  have s1 := hs.song
  have s2 := hs.album
  have s3 := hs.artist
  rw [hc] at s1 s2 s3
  cases c
  · exact s1.finished hp h0
  · exact s2.finished hp h0
  · exact s3.finished hp h0

theorem State.Ok.ret_zero_cat {α β γ : Type} {cfg : Config α β γ} {st : State α β γ}
    (hs : st.Ok cfg) {r : List α × List β × List γ} (hr : st.ret = some r) (c : Cat)
    (hw : (st.callPc c).wrote = false) : retLen r c = 0 := by
  cases c
  · have := (hs.retSong r.1 (by rw [hr]; rfl)).1 hw
    show r.1.length = 0
    rw [this]; rfl
  · have := (hs.retAlbum r.2.1 (by rw [hr]; rfl)).1 hw
    show r.2.1.length = 0
    rw [this]; rfl
  · have := (hs.retArtist r.2.2 (by rw [hr]; rfl)).1 hw
    show r.2.2.length = 0
    rw [this]; rfl

/-- The anonymous goroutine of a category can call `Search` once it is started, whatever
the other goroutines have done. -/
theorem searchAll.invoke_enabled {α β γ : Type} (cfg : Config α β γ) (st : State α β γ)
    (c : Cat) (h : st.callPc c = .spawned) :
    (searchAll.step cfg (.branch c .invoke) st).isSome = true := by
  cases c
  · simp only [searchAll.step, doSearch.step]
    rw [if_pos (show st.song.inner = _ from h)]; rfl
  · simp only [searchAll.step, doSearch.step]
    rw [if_pos (show st.album.inner = _ from h)]; rfl
  · simp only [searchAll.step, doSearch.step]
    rw [if_pos (show st.artist.inner = _ from h)]; rfl

/-- The call of a category can return and assign its result once it is made, whatever the
other goroutines have done. -/
theorem searchAll.assign_enabled {α β γ : Type} (cfg : Config α β γ) (st : State α β γ)
    (c : Cat) (h : st.callPc c = .inCall) :
    (searchAll.step cfg (.branch c .assign) st).isSome = true := by
  cases c
  · simp only [searchAll.step, doSearch.step]
    rw [if_pos (show st.song.inner = _ from h)]; rfl
  · simp only [searchAll.step, doSearch.step]
    rw [if_pos (show st.album.inner = _ from h)]; rfl
  · simp only [searchAll.step, doSearch.step]
    rw [if_pos (show st.artist.inner = _ from h)]; rfl

theorem State.Ok.quiescent_returned {α β γ : Type} {cfg : Config α β γ} {st : State α β γ}
    (hs : st.Ok cfg) (hq : st.Quiescent cfg) : st.pc = .returned := by
  cases hn : st.next with
  | none => exact State.next_none hn
  | some a =>
    obtain ⟨st1, h1⟩ := State.next_enabled hs hn
    rw [hq a (State.next_not_cancel hn)] at h1
    cases h1

theorem State.Ok.quiescent_called {α β γ : Type} {cfg : Config α β γ} {st : State α β γ}
    (hs : st.Ok cfg) (hq : st.Quiescent cfg) (c : Cat) (h0 : cfg.sp.count c ≠ 0) :
    (st.callPc c).called = true := by
  have hp := hs.quiescent_returned hq
  have hr := hs.joined_cat (by rw [hp]; decide) c
  have h1 := hs.started_cat c hr h0
  cases hi : st.callPc c with
  | notStarted => exact absurd hi h1
  | spawned =>
    have h3 := searchAll.invoke_enabled cfg st c hi
    rw [hq (Action.branch c Act.invoke) rfl] at h3
    cases h3
  | _ => rfl

theorem searchAll.exists_quiescent {α β γ : Type} {cfg : Config α β γ} (n : Nat)
    {st : State α β γ} (hs : st.Ok cfg) (hn : st.fuel ≤ n) :
    ∃ more st1, searchAll.runFrom cfg more st = some st1 ∧ st1.Quiescent cfg := by
  induction n generalizing st with
  | zero =>
    refine ⟨[], st, rfl, ?_⟩
    intro a _
    cases h : searchAll.step cfg a st with
    | none => rfl
    | some st1 =>
      have := searchAll.step_fuel h hs
      omega
  | succ n ih =>
    by_cases hq : st.Quiescent cfg
    · exact ⟨[], st, rfl, hq⟩
    · unfold State.Quiescent at hq
      push_neg at hq
      obtain ⟨a, -, h1⟩ := hq
      obtain ⟨st1, h2⟩ := Option.ne_none_iff_exists'.mp h1
      have := searchAll.step_fuel h2 hs
      obtain ⟨more, st2, h3, h4⟩ := ih (searchAll.step_ok h2 hs) (by omega)
      exact ⟨a :: more, st2, by simp only [searchAll.runFrom, h2, Option.some_bind]; exact h3, h4⟩

theorem doSearch.step_keeps_wrote {T : Type} [Inhabited T] {s : searchFunc T} {typ : String}
    {c : Bool} {a : Act} {b b1 : Branch T} {d : Bool} {l : List LogEntry}
    (h : doSearch.step s typ c a b = some (b1, d, l)) (hb : b.Ok s)
    (ha : a = .entry ∨ a = .recvCancel) : b1.inner.wrote = b.inner.wrote := by
  have h4 := hb.compat
  obtain ⟨q, off, size, pc, inner, result, calls, dones⟩ := b
  rcases ha with rfl | rfl <;> cases pc <;> cases inner <;>
    simp [doSearch.step, WaitPc.compat] at h h4 <;>
    (try split_ifs at h) <;>
    (try simp only [Option.some.injEq, Prod.mk.injEq] at h) <;>
    (try obtain ⟨rfl, rfl, rfl⟩ := h) <;>
    (try obtain ⟨hc, rfl, rfl, rfl⟩ := h) <;>
    rfl

theorem Action.branch_not_call {c : Cat} {a : Act} (h : (Action.branch c a).byCall = false) :
    a = .entry ∨ a = .recvCancel := by
  cases c <;> cases a <;> simp [Action.byCall] at h ⊢

theorem searchAll.step_wrote {α β γ : Type} {cfg : Config α β γ} {a : Action}
    {st st1 : State α β γ} (h : searchAll.step cfg a st = some st1) (hs : st.Ok cfg)
    (ha : a.byCall = false) (c : Cat) : (st1.callPc c).wrote = (st.callPc c).wrote := by
  cases a with
  | branch c1 a1 =>
    have ha1 := Action.branch_not_call ha
    cases c1 <;> simp only [searchAll.step, Option.map_eq_some'] at h <;>
      obtain ⟨⟨b1, d, l⟩, hb, rfl⟩ := h
    · have := doSearch.step_keeps_wrote hb hs.song.ok ha1
      cases c <;> first | exact this | rfl
    · have := doSearch.step_keeps_wrote hb hs.album.ok ha1
      cases c <;> first | exact this | rfl
    · have := doSearch.step_keeps_wrote hb hs.artist.ok ha1
      cases c <;> first | exact this | rfl
  | _ =>
    simp only [searchAll.step] at h
    split_ifs at h
    cases h
    cases c <;> rfl

theorem searchAll.runFrom_wrote {α β γ : Type} {cfg : Config α β γ} {more : List Action}
    {st st1 : State α β γ} (h : searchAll.runFrom cfg more st = some st1) (hs : st.Ok cfg)
    (ha : ∀ a ∈ more, a.byCall = false) (c : Cat) :
    (st1.callPc c).wrote = (st.callPc c).wrote := by
  induction more generalizing st with
  | nil =>
    simp only [searchAll.runFrom, Option.some.injEq] at h
    rw [h]
  | cons a as ih =>
    simp only [searchAll.runFrom, Option.bind_eq_some] at h
    obtain ⟨st2, h1, h2⟩ := h
    rw [ih h2 (searchAll.step_ok h1 hs) (fun x hx => ha x (List.mem_cons_of_mem _ hx))]
    exact searchAll.step_wrote h1 hs (ha a (List.mem_cons_self _ _)) c

/-- A waiting `doSearch` goroutine can leave its `select` once the context is cancelled,
leaving the anonymous goroutine where it is. -/
theorem searchAll.recvCancel_enabled {α β γ : Type} (cfg : Config α β γ) (st : State α β γ)
    (hc : st.ctxErr.isSome = true) (c : Cat) (hp : st.waitPc c = .select) :
    ∃ st1, searchAll.step cfg (.branch c .recvCancel) st = some st1 ∧
      st1.waitPc c = .returned ∧ st1.callPc c = st.callPc c := by
  cases c
  · refine ⟨{ st.absorb true [] with
        song := { st.song with pc := .returned, dones := st.song.dones + 1 } }, ?_, ?_, ?_⟩
    · simp only [searchAll.step, doSearch.step]
      rw [if_pos ⟨show st.song.pc = _ from hp, hc⟩]
      rfl
    · rfl
    · rfl
  · refine ⟨{ st.absorb true [] with
        album := { st.album with pc := .returned, dones := st.album.dones + 1 } }, ?_, ?_, ?_⟩
    · simp only [searchAll.step, doSearch.step]
      rw [if_pos ⟨show st.album.pc = _ from hp, hc⟩]
      rfl
    · rfl
    · rfl
  · refine ⟨{ st.absorb true [] with
        artist := { st.artist with pc := .returned, dones := st.artist.dones + 1 } }, ?_, ?_, ?_⟩
    · simp only [searchAll.step, doSearch.step]
      rw [if_pos ⟨show st.artist.pc = _ from hp, hc⟩]
      rfl
    · rfl
    · rfl

theorem CallPc.in_flight {i : CallPc} (h1 : i ≠ .notStarted) (h2 : i.wrote = false) :
    i = .spawned ∨ i = .inCall := by
  cases i <;> simp [CallPc.wrote] at h1 h2 ⊢

theorem searchAll.summaryLine_isSummary (query : String) (n1 n2 n3 : Nat) (e : Option CtxErr) :
    (searchAll.summaryLine query n1 n2 n3 e).isSummary = true := by
  cases e <;> rfl

/-- Once the summary line is written, no later step writes another. -/
theorem searchAll.step_summary_fixed {α β γ : Type} {cfg : Config α β γ} {a : Action}
    {st st1 : State α β γ} (h : searchAll.step cfg a st = some st1) (hs : st.Ok cfg)
    (hr : 6 ≤ st.pc.rank) :
    6 ≤ st1.pc.rank ∧
      st1.log.filter LogEntry.isSummary = st.log.filter LogEntry.isSummary := by
  cases a with
  | branch c1 a1 =>
    cases c1 <;> simp only [searchAll.step, Option.map_eq_some'] at h <;>
      obtain ⟨⟨b1, d, l⟩, hb, rfl⟩ := h
    · obtain ⟨-, -, -, -, -, -, -, f11, -, -⟩ := doSearch.step_frame hb hs.song.ok
      exact ⟨hr, filter_summary_append f11⟩
    · obtain ⟨-, -, -, -, -, -, -, f11, -, -⟩ := doSearch.step_frame hb hs.album.ok
      exact ⟨hr, filter_summary_append f11⟩
    · obtain ⟨-, -, -, -, -, -, -, f11, -, -⟩ := doSearch.step_frame hb hs.artist.ok
      exact ⟨hr, filter_summary_append f11⟩
  | cancel e =>
    simp only [searchAll.step] at h
    split_ifs at h
    cases h
    exact ⟨hr, rfl⟩
  | ret =>
    simp only [searchAll.step] at h
    split_ifs at h
    cases h
    exact ⟨(by decide : 6 ≤ 7), rfl⟩
  | wait =>
    simp only [searchAll.step] at h
    split_ifs at h with g
    rw [g.1] at hr
    simp at hr
  | _ =>
    simp only [searchAll.step] at h
    split_ifs at h with g
    rw [g] at hr
    simp at hr

/-- Once all `doSearch` invocations have returned with no call left running, no step
changes any of them. -/
theorem searchAll.step_settled {α β γ : Type} {cfg : Config α β γ} {a : Action}
    {st st1 : State α β γ} (h : searchAll.step cfg a st = some st1) (hs : st.Ok cfg)
    (hr : 5 ≤ st.pc.rank) (hst : st.Stable) :
    5 ≤ st1.pc.rank ∧ st1.song = st.song ∧ st1.album = st.album ∧ st1.artist = st.artist := by
  cases a with
  | branch c1 a1 =>
    cases c1 <;> simp only [searchAll.step, Option.map_eq_some'] at h <;>
      obtain ⟨⟨b1, d, l⟩, hb, rfl⟩ := h
    · obtain ⟨-, -, -, -, -, f9, -, -, -, -⟩ := doSearch.step_frame hb hs.song.ok
      exact absurd ⟨hs.song.joined hr, hst.1⟩ f9
    · obtain ⟨-, -, -, -, -, f9, -, -, -, -⟩ := doSearch.step_frame hb hs.album.ok
      exact absurd ⟨hs.album.joined hr, hst.2.1⟩ f9
    · obtain ⟨-, -, -, -, -, f9, -, -, -, -⟩ := doSearch.step_frame hb hs.artist.ok
      exact absurd ⟨hs.artist.joined hr, hst.2.2⟩ f9
  | cancel e =>
    simp only [searchAll.step] at h
    split_ifs at h
    cases h
    exact ⟨hr, rfl, rfl, rfl⟩
  | ret =>
    simp only [searchAll.step] at h
    split_ifs at h
    cases h
    exact ⟨(by decide : 5 ≤ 7), rfl, rfl, rfl⟩
  | summary =>
    simp only [searchAll.step] at h
    split_ifs at h
    cases h
    exact ⟨(by decide : 5 ≤ 6), rfl, rfl, rfl⟩
  | wait =>
    simp only [searchAll.step] at h
    split_ifs at h with g
    rw [g.1] at hr
    simp at hr
  | _ =>
    simp only [searchAll.step] at h
    split_ifs at h with g
    rw [g] at hr
    simp at hr

theorem searchAll.runFrom_settled {α β γ : Type} {cfg : Config α β γ}
    {more : List Action} {st st1 : State α β γ}
    (h : searchAll.runFrom cfg more st = some st1) (hs : st.Ok cfg) (hr : 5 ≤ st.pc.rank)
    (hst : st.Stable) : st1.song = st.song ∧ st1.album = st.album ∧ st1.artist = st.artist := by
  induction more generalizing st with
  | nil =>
    simp only [searchAll.runFrom, Option.some.injEq] at h
    rw [h]
    exact ⟨rfl, rfl, rfl⟩
  | cons a as ih =>
    simp only [searchAll.runFrom, Option.bind_eq_some] at h
    obtain ⟨st2, h1, h2⟩ := h
    obtain ⟨g0, g1, g2, g3⟩ := searchAll.step_settled h1 hs hr hst
    have hst2 : st2.Stable := by
      unfold State.Stable
      rw [g1, g2, g3]
      exact hst
    obtain ⟨e1, e2, e3⟩ := ih h2 (searchAll.step_ok h1 hs) g0 hst2
    exact ⟨e1.trans g1, e2.trans g2, e3.trans g3⟩

theorem searchAll.runFrom_summary_fixed {α β γ : Type} {cfg : Config α β γ}
    {more : List Action} {st st1 : State α β γ}
    (h : searchAll.runFrom cfg more st = some st1) (hs : st.Ok cfg) (hr : 6 ≤ st.pc.rank) :
    st1.log.filter LogEntry.isSummary = st.log.filter LogEntry.isSummary := by
  induction more generalizing st with
  | nil =>
    simp only [searchAll.runFrom, Option.some.injEq] at h
    rw [h]
  | cons a as ih =>
    simp only [searchAll.runFrom, Option.bind_eq_some] at h
    obtain ⟨st2, h1, h2⟩ := h
    obtain ⟨g1, g2⟩ := searchAll.step_summary_fixed h1 hs hr
    rw [ih h2 (searchAll.step_ok h1 hs) g1, g2]

theorem State.Ok.queryArg_cat {α β γ : Type} {cfg : Config α β γ} {st : State α β γ}
    (hs : st.Ok cfg) (c : Cat) (hp : st.waitPc c ≠ .notSpawned) :
    st.queryArg c = normQuery cfg.L cfg.sp.query := by
  cases c
  · exact (hs.song.args hp).1
  · exact (hs.album.args hp).1
  · exact (hs.artist.args hp).1

/-- C1: when the count (size) of a category is 0, `doSearch` returns at once: from its
entry the only step is the return, which leaves `*result` and the calls made to `s`
unchanged, logs nothing and signals `wg.Done()`, and no further step follows.  In every
state of `searchAll` that category has made no call, its anonymous goroutine was never
started, and its result is empty; the sequence returned for it is empty, and a return is
reachable from every state. -/
theorem C1_zero_count_skips_search {α β γ : Type} (cfg : Config α β γ) (c : Cat)
    (h0 : cfg.sp.count c = 0) :
    (∀ (T : Type) (s : searchFunc T) (typ : String) (cancelled : Bool)
        (b : Branch T), b.pc = .entry → b.inner = .notStarted → b.size = 0 →
        ∀ a r, doSearch.step s typ cancelled a b = some r →
          a = .entry ∧ r.1.pc = .returned ∧ r.1.result = b.result ∧ r.1.calls = b.calls ∧
          r.2.1 = true ∧ r.2.2 = [] ∧
          ∀ a2 c2, doSearch.step s typ c2 a2 r.1 = none) ∧
    (∀ acts st, searchAll.run cfg acts = some st →
      st.calls c = [] ∧ st.callPc c = .notStarted ∧ st.resultLen c = 0 ∧
      ∀ r, st.ret = some r → retLen r c = 0) ∧
    (∀ acts st, searchAll.run cfg acts = some st →
      ∃ more st1 r, searchAll.runFrom cfg more st = some st1 ∧ st1.ret = some r ∧
        retLen r c = 0) := by
  have key : ∀ st : State α β γ, st.Ok cfg →
      st.calls c = [] ∧ st.callPc c = .notStarted ∧ st.resultLen c = 0 ∧
      ∀ r, st.ret = some r → retLen r c = 0 := by
    intro st hs
    cases c with
    | song =>
      have hi := hs.song.idle_of_zero h0
      have h1 := hs.song.calls
      have h2 := hs.song.result
      rw [hi] at h1 h2
      refine ⟨h1, hi, ?_, ?_⟩
      · show st.song.result.length = 0
        rw [h2]; rfl
      · intro r hr
        have := (hs.retSong r.1 (by rw [hr]; rfl)).1 (by rw [hi]; rfl)
        show r.1.length = 0
        rw [this]; rfl
    | album =>
      have hi := hs.album.idle_of_zero h0
      have h1 := hs.album.calls
      have h2 := hs.album.result
      rw [hi] at h1 h2
      refine ⟨h1, hi, ?_, ?_⟩
      · show st.album.result.length = 0
        rw [h2]; rfl
      · intro r hr
        have := (hs.retAlbum r.2.1 (by rw [hr]; rfl)).1 (by rw [hi]; rfl)
        show r.2.1.length = 0
        rw [this]; rfl
    | artist =>
      have hi := hs.artist.idle_of_zero h0
      have h1 := hs.artist.calls
      have h2 := hs.artist.result
      rw [hi] at h1 h2
      refine ⟨h1, hi, ?_, ?_⟩
      · show st.artist.result.length = 0
        rw [h2]; rfl
      · intro r hr
        have := (hs.retArtist r.2.2 (by rw [hr]; rfl)).1 (by rw [hi]; rfl)
        show r.2.2.length = 0
        rw [this]; rfl
  refine ⟨?_, fun acts st h => key st (searchAll.run_ok h), ?_⟩
  · intro T s typ cancelled b hp hi hz a r h
    obtain ⟨q, off, size, pc, inner, result, calls, dones⟩ := b
    simp only at hp hi hz
    subst hp hi hz
    cases a <;> simp [doSearch.step] at h
    subst h
    refine ⟨rfl, rfl, rfl, rfl, rfl, rfl, ?_⟩
    intro a2 c2
    cases a2 <;> simp [doSearch.step]
  · intro acts st h
    have hs := searchAll.run_ok h
    obtain ⟨more, st1, r, h1, h2, -, -⟩ := searchAll.exists_return hs
    exact ⟨more, st1, r, h1, h2, (key st1 (searchAll.runFrom_ok hs h1)).2.2.2 r h2⟩

/-- The scenario call, whose album count is 0, as an instance of the theorem above, with
one complete execution evaluated. -/
theorem C1_zero_count_skips_search_witness :
    beatlesConfig.sp.count Cat.album = 0 ∧
    (searchAll.run beatlesConfig beatlesRun).map (fun st => (st.calls Cat.album, st.ret)) =
      some ([], some ([11, 12], [], [31])) ∧
    ((∀ (T : Type) (s : searchFunc T) (typ : String) (cancelled : Bool)
        (b : Branch T), b.pc = .entry → b.inner = .notStarted → b.size = 0 →
        ∀ a r, doSearch.step s typ cancelled a b = some r →
          a = .entry ∧ r.1.pc = .returned ∧ r.1.result = b.result ∧ r.1.calls = b.calls ∧
          r.2.1 = true ∧ r.2.2 = [] ∧
          ∀ a2 c2, doSearch.step s typ c2 a2 r.1 = none) ∧
    (∀ acts st, searchAll.run beatlesConfig acts = some st →
      st.calls Cat.album = [] ∧ st.callPc Cat.album = .notStarted ∧
      st.resultLen Cat.album = 0 ∧
      ∀ r, st.ret = some r → retLen r Cat.album = 0) ∧
    (∀ acts st, searchAll.run beatlesConfig acts = some st →
      ∃ more st1 r, searchAll.runFrom beatlesConfig more st = some st1 ∧ st1.ret = some r ∧
        retLen r Cat.album = 0)) :=
  ⟨by decide, by rfl, C1_zero_count_skips_search beatlesConfig Cat.album (by decide)⟩

/-- C2: when all three counts are positive, the context is not cancelled and each of the
three `Search` calls returns its sequence with a nil error, `searchAll` returns exactly
these three sequences: every execution that has returned without cancellation returned
them, every execution without cancellation can be continued, without cancellation, to such
a return, and no execution has more than 32 steps. -/
theorem C2_success_returns_search_results {α β γ : Type} (cfg : Config α β γ)
    (songs : List α) (albums : List β) (artists : List γ)
    (hcount : 0 < cfg.sp.songCount ∧ 0 < cfg.sp.albumCount ∧ 0 < cfg.sp.artistCount)
    (hsong : cfg.ds.MediaFile (normQuery cfg.L cfg.sp.query) cfg.sp.songOffset
      cfg.sp.songCount = (songs, none))
    (halbum : cfg.ds.Album (normQuery cfg.L cfg.sp.query) cfg.sp.albumOffset
      cfg.sp.albumCount = (albums, none))
    (hartist : cfg.ds.Artist (normQuery cfg.L cfg.sp.query) cfg.sp.artistOffset
      cfg.sp.artistCount = (artists, none)) :
    (∀ acts st r, searchAll.run cfg acts = some st → st.ctxErr = none → st.ret = some r →
      r = (songs, albums, artists)) ∧
    (∀ acts st, searchAll.run cfg acts = some st → st.ctxErr = none →
      ∃ more st1, searchAll.runFrom cfg more st = some st1 ∧ st1.ctxErr = none ∧
        st1.ret = some (songs, albums, artists)) ∧
    (∀ acts st, searchAll.run cfg acts = some st → acts.length ≤ 32) := by
  have key : ∀ (st : State α β γ) r, st.Ok cfg → st.ctxErr = none → st.ret = some r →
      r = (songs, albums, artists) := by
    intro st r hs hc hr
    rw [hs.ret_not_cancelled hc hr, hsong, halbum, hartist, if_neg (by omega),
      if_neg (by omega), if_neg (by omega)]
  refine ⟨fun acts st r h => key st r (searchAll.run_ok h), ?_, ?_⟩
  · intro acts st h hc
    have hs := searchAll.run_ok h
    obtain ⟨more, st1, r, h1, h2, h3, -⟩ := searchAll.exists_return hs
    have h4 := h3.trans hc
    exact ⟨more, st1, h1, h4, key st1 r (searchAll.runFrom_ok hs h1) h4 h2 ▸ h2⟩
  · intro acts st h
    have := searchAll.run_length h
    omega

/-- The sample call with a succeeding data store as an instance of the theorem above, with
one complete execution evaluated. -/
theorem C2_success_returns_search_results_witness :
    (0 < (sampleConfig false).sp.songCount ∧ 0 < (sampleConfig false).sp.albumCount ∧
      0 < (sampleConfig false).sp.artistCount) ∧
    (sampleConfig false).ds.MediaFile "cafe" 0 2 = ([11, 12], none) ∧
    (sampleConfig false).ds.Album "cafe" 0 1 = ([21], none) ∧
    (sampleConfig false).ds.Artist "cafe" 0 1 = ([31], none) ∧
    (searchAll.run (sampleConfig false) sampleRun).map (fun st => (st.ctxErr, st.ret)) =
      some (none, some ([11, 12], [21], [31])) ∧
    ((∀ acts st r, searchAll.run (sampleConfig false) acts = some st → st.ctxErr = none →
      st.ret = some r → r = ([11, 12], [21], [31])) ∧
    (∀ acts st, searchAll.run (sampleConfig false) acts = some st → st.ctxErr = none →
      ∃ more st1, searchAll.runFrom (sampleConfig false) more st = some st1 ∧
        st1.ctxErr = none ∧ st1.ret = some ([11, 12], [21], [31])) ∧
    (∀ acts st, searchAll.run (sampleConfig false) acts = some st → acts.length ≤ 32)) :=
  ⟨by decide, by decide, by decide, by decide, by rfl,
    C2_success_returns_search_results (sampleConfig false) [11, 12] [21] [31] (by decide)
      (by decide) (by decide) (by decide)⟩

/-- C3, the claim as stated fails: in the sample call whose album search returns the album
`21` together with the error `boom`, an execution without cancellation returns that album,
not the empty sequence. -/
theorem C3_counterexample :
    (sampleConfig true).ds.Album (normQuery (sampleConfig true).L (sampleConfig true).sp.query)
      (sampleConfig true).sp.albumOffset (sampleConfig true).sp.albumCount =
      ([21], some "boom") ∧
    (searchAll.run (sampleConfig true) sampleRun).map (fun st => (st.ctxErr, st.ret)) =
      some (none, some ([11, 12], [21], [31])) ∧
    ([21] : List Nat) ≠ [] :=
  ⟨by decide, by rfl, by decide⟩

/-- C3, amended: when the context is not cancelled and the three counts are non-zero, the
result of every category in the aggregate is the value its own `Search` call returned,
whatever error came with it.  So the result of a failing category is the value returned
next to the error (the zero value exactly when the call returned the zero value), and the
other two results are what their calls returned.  Every uncancelled execution can be
continued to such a return. -/
theorem C3_error_keeps_returned_value {α β γ : Type} (cfg : Config α β γ)
    (songs : List α) (albums : List β) (artists : List γ) (es ea er : Error)
    (hcount : cfg.sp.songCount ≠ 0 ∧ cfg.sp.albumCount ≠ 0 ∧ cfg.sp.artistCount ≠ 0)
    (hsong : cfg.ds.MediaFile (normQuery cfg.L cfg.sp.query) cfg.sp.songOffset
      cfg.sp.songCount = (songs, es))
    (halbum : cfg.ds.Album (normQuery cfg.L cfg.sp.query) cfg.sp.albumOffset
      cfg.sp.albumCount = (albums, ea))
    (hartist : cfg.ds.Artist (normQuery cfg.L cfg.sp.query) cfg.sp.artistOffset
      cfg.sp.artistCount = (artists, er)) :
    (∀ acts st r, searchAll.run cfg acts = some st → st.ctxErr = none → st.ret = some r →
      r = (songs, albums, artists)) ∧
    (∀ acts st, searchAll.run cfg acts = some st → st.ctxErr = none →
      ∃ more st1, searchAll.runFrom cfg more st = some st1 ∧ st1.ctxErr = none ∧
        st1.ret = some (songs, albums, artists)) := by
  have key : ∀ (st : State α β γ) r, st.Ok cfg → st.ctxErr = none → st.ret = some r →
      r = (songs, albums, artists) := by
    intro st r hs hc hr
    rw [hs.ret_not_cancelled hc hr, hsong, halbum, hartist, if_neg hcount.1,
      if_neg hcount.2.1, if_neg hcount.2.2]
  refine ⟨fun acts st r h => key st r (searchAll.run_ok h), ?_⟩
  intro acts st h hc
  have hs := searchAll.run_ok h
  obtain ⟨more, st1, r, h1, h2, h3, -⟩ := searchAll.exists_return hs
  have h4 := h3.trans hc
  exact ⟨more, st1, h1, h4, key st1 r (searchAll.runFrom_ok hs h1) h4 h2 ▸ h2⟩

/-- The sample call whose album search fails as an instance of the amended statement. -/
theorem C3_error_keeps_returned_value_witness :
    ((sampleConfig true).sp.songCount ≠ 0 ∧ (sampleConfig true).sp.albumCount ≠ 0 ∧
      (sampleConfig true).sp.artistCount ≠ 0) ∧
    (sampleConfig true).ds.MediaFile "cafe" 0 2 = ([11, 12], none) ∧
    (sampleConfig true).ds.Album "cafe" 0 1 = ([21], some "boom") ∧
    (sampleConfig true).ds.Artist "cafe" 0 1 = ([31], none) ∧
    ((∀ acts st r, searchAll.run (sampleConfig true) acts = some st → st.ctxErr = none →
      st.ret = some r → r = ([11, 12], [21], [31])) ∧
    (∀ acts st, searchAll.run (sampleConfig true) acts = some st → st.ctxErr = none →
      ∃ more st1, searchAll.runFrom (sampleConfig true) more st = some st1 ∧
        st1.ctxErr = none ∧ st1.ret = some ([11, 12], [21], [31]))) :=
  ⟨by decide, by decide, by decide, by decide,
    C3_error_keeps_returned_value (sampleConfig true) [11, 12] [21] [31] none (some "boom")
      none (by decide) (by decide) (by decide) (by decide)⟩

/-- C5: given that the two library functions lower-case `Café` and `CAFE` to `café` and
`cafe` and fold `café` to `cafe` (leaving `cafe` unchanged), the three queries `Café*`,
`cafe` and `CAFE*` normalise to the one string `cafe`, and in every execution of
`searchAll` on one of them, `cafe` is the query argument of every `doSearch` invocation
started and of every `Search` call made. -/
theorem C5_cafe_queries_share_normal_form {α β γ : Type} (cfg : Config α β γ)
    (hq : cfg.sp.query = "Café*" ∨ cfg.sp.query = "cafe" ∨ cfg.sp.query = "CAFE*")
    (hl1 : cfg.L.ToLower "Café" = "café") (hl2 : cfg.L.ToLower "cafe" = "cafe")
    (hl3 : cfg.L.ToLower "CAFE" = "cafe") (ha1 : cfg.L.Accents "café" = "cafe")
    (ha2 : cfg.L.Accents "cafe" = "cafe") :
    (normQuery cfg.L "Café*" = "cafe" ∧ normQuery cfg.L "cafe" = "cafe" ∧
      normQuery cfg.L "CAFE*" = "cafe") ∧
    (∀ acts st, searchAll.run cfg acts = some st → ∀ c,
      (st.waitPc c ≠ .notSpawned → st.queryArg c = "cafe") ∧
      (∀ call ∈ st.calls c, call.1 = "cafe")) := by
  have t1 : strings.TrimSuffix "Café*" "*" = "Café" := by decide
  have t2 : strings.TrimSuffix "cafe" "*" = "cafe" := by decide
  have t3 : strings.TrimSuffix "CAFE*" "*" = "CAFE" := by decide
  have n1 : normQuery cfg.L "Café*" = "cafe" := by
    unfold normQuery; rw [t1, hl1, ha1]
  have n2 : normQuery cfg.L "cafe" = "cafe" := by
    unfold normQuery; rw [t2, hl2, ha2]
  have n3 : normQuery cfg.L "CAFE*" = "cafe" := by
    unfold normQuery; rw [t3, hl3, ha2]
  have n : normQuery cfg.L cfg.sp.query = "cafe" := by
    rcases hq with g | g | g <;> rw [g] <;> assumption
  refine ⟨⟨n1, n2, n3⟩, ?_⟩
  intro acts st h c
  have hs := searchAll.run_ok h
  refine ⟨fun hp => (hs.queryArg_cat c hp).trans n, ?_⟩
  intro call hcall
  rw [hs.calls_cat c] at hcall
  split at hcall
  · rw [List.mem_singleton] at hcall
    rw [hcall]
    exact n
  · simp at hcall

/-- The sample call, whose query is `Café*`, as an instance of the theorem above, with the
calls of one complete execution evaluated. -/
theorem C5_cafe_queries_share_normal_form_witness :
    ((sampleConfig false).sp.query = "Café*" ∨ (sampleConfig false).sp.query = "cafe" ∨
      (sampleConfig false).sp.query = "CAFE*") ∧
    (sampleConfig false).L.ToLower "Café" = "café" ∧
    (sampleConfig false).L.ToLower "cafe" = "cafe" ∧
    (sampleConfig false).L.ToLower "CAFE" = "cafe" ∧
    (sampleConfig false).L.Accents "café" = "cafe" ∧
    (sampleConfig false).L.Accents "cafe" = "cafe" ∧
    (searchAll.run (sampleConfig false) sampleRun).map
      (fun st => (st.calls Cat.song, st.calls Cat.album, st.calls Cat.artist)) =
      some ([("cafe", 0, 2)], [("cafe", 0, 1)], [("cafe", 0, 1)]) ∧
    ((normQuery (sampleConfig false).L "Café*" = "cafe" ∧
      normQuery (sampleConfig false).L "cafe" = "cafe" ∧
      normQuery (sampleConfig false).L "CAFE*" = "cafe") ∧
    (∀ acts st, searchAll.run (sampleConfig false) acts = some st → ∀ c,
      (st.waitPc c ≠ .notSpawned → st.queryArg c = "cafe") ∧
      (∀ call ∈ st.calls c, call.1 = "cafe"))) :=
  ⟨by decide, by decide, by decide, by decide, by decide, by decide, by rfl,
    C5_cafe_queries_share_normal_form (sampleConfig false) (by decide) (by decide) (by decide)
      (by decide) (by decide) (by decide)⟩

/-- C6: for the query `"Beatles*"` with artistCount=1, albumCount=0, songCount=2 and a data
source whose song search returns two songs and whose artist search returns one artist,
`searchAll` never calls the album search, and without cancellation it returns the two
songs, no album and the one artist; every uncancelled execution can be continued to that
return. -/
theorem C6_beatles_scenario {α β γ : Type} (L : Libs) (ds : DataStore α β γ)
    (songOffset albumOffset artistOffset : Int) (s1 s2 : α) (a : γ)
    (hsong : (ds.MediaFile (normQuery L "Beatles*") songOffset 2).1 = [s1, s2])
    (hartist : (ds.Artist (normQuery L "Beatles*") artistOffset 1).1 = [a]) :
    (∀ acts st, searchAll.run (Config.mk L ds (beatlesParams songOffset albumOffset
        artistOffset)) acts = some st → st.calls Cat.album = []) ∧
    (∀ acts st r, searchAll.run (Config.mk L ds (beatlesParams songOffset albumOffset
        artistOffset)) acts = some st → st.ctxErr = none → st.ret = some r →
      r = ([s1, s2], [], [a])) ∧
    (∀ acts st, searchAll.run (Config.mk L ds (beatlesParams songOffset albumOffset
        artistOffset)) acts = some st → st.ctxErr = none →
      ∃ more st1, searchAll.runFrom (Config.mk L ds (beatlesParams songOffset albumOffset
        artistOffset)) more st = some st1 ∧ st1.ctxErr = none ∧
        st1.ret = some ([s1, s2], [], [a])) := by
  have key : ∀ (st : State α β γ) r,
      st.Ok (Config.mk L ds (beatlesParams songOffset albumOffset artistOffset)) →
      st.ctxErr = none → st.ret = some r → r = ([s1, s2], [], [a]) := by
    intro st r hs hc hr
    have := hs.ret_not_cancelled hc hr
    simp only [beatlesParams] at this
    rw [this, hsong, hartist]
    simp
  refine ⟨?_, fun acts st r h => key st r (searchAll.run_ok h), ?_⟩
  · intro acts st h
    have hs := searchAll.run_ok h
    have hi := hs.album.idle_of_zero rfl
    have h1 := hs.album.calls
    rw [hi] at h1
    exact h1
  · intro acts st h hc
    have hs := searchAll.run_ok h
    obtain ⟨more, st1, r, h1, h2, h3, -⟩ := searchAll.exists_return hs
    have h4 := h3.trans hc
    exact ⟨more, st1, h1, h4, key st1 r (searchAll.runFrom_ok hs h1) h4 h2 ▸ h2⟩

/-- The scenario with the sample library functions and data store as an instance of the
theorem above, with one complete execution evaluated. -/
theorem C6_beatles_scenario_witness :
    ((sampleStore false).MediaFile (normQuery Libs.sample "Beatles*") 0 2).1 = [11, 12] ∧
    ((sampleStore false).Artist (normQuery Libs.sample "Beatles*") 0 1).1 = [31] ∧
    (searchAll.run beatlesConfig beatlesRun).map (fun st => (st.ctxErr, st.ret)) =
      some (none, some ([11, 12], [], [31])) ∧
    ((∀ acts st, searchAll.run (Config.mk Libs.sample (sampleStore false)
        (beatlesParams 0 0 0)) acts = some st → st.calls Cat.album = []) ∧
    (∀ acts st r, searchAll.run (Config.mk Libs.sample (sampleStore false)
        (beatlesParams 0 0 0)) acts = some st → st.ctxErr = none → st.ret = some r →
      r = ([11, 12], [], [31])) ∧
    (∀ acts st, searchAll.run (Config.mk Libs.sample (sampleStore false)
        (beatlesParams 0 0 0)) acts = some st → st.ctxErr = none →
      ∃ more st1, searchAll.runFrom (Config.mk Libs.sample (sampleStore false)
        (beatlesParams 0 0 0)) more st = some st1 ∧ st1.ctxErr = none ∧
        st1.ret = some ([11, 12], [], [31]))) :=
  ⟨by decide, by decide, by rfl,
    C6_beatles_scenario Libs.sample (sampleStore false) 0 0 0 11 12 31 (by decide) (by decide)⟩

/-- C7: in a state where the context is cancelled and no `Search` call has completed, every
`doSearch` goroutine waiting in its `select` can return through `ctx.Done()` at once, its
call staying where it is; `searchAll` can be run to its return by steps of `searchAll` and
of the waiting goroutines only, that is without any step of a call, and then returns three
empty sequences while every call that was started is still in flight and can still go on
(`Search` can still be called, or can still return and assign); and however the execution
goes on, a category whose call has not completed is returned empty. -/
theorem C7_cancel_abandons_calls {α β γ : Type} (cfg : Config α β γ) (acts : List Action)
    (s0 : State α β γ) (h : searchAll.run cfg acts = some s0)
    (hc : s0.ctxErr.isSome = true) (hw : ∀ c, (s0.callPc c).wrote = false) :
    (∀ c, s0.waitPc c = .select →
      ∃ s1, searchAll.step cfg (.branch c .recvCancel) s0 = some s1 ∧
        s1.waitPc c = .returned ∧ s1.callPc c = s0.callPc c) ∧
    (∃ more s1, searchAll.runFrom cfg more s0 = some s1 ∧ (∀ a ∈ more, a.byCall = false) ∧
      s1.ret = some ([], [], []) ∧
      ∀ c, cfg.sp.count c ≠ 0 →
        (s1.callPc c = .spawned ∧
          (searchAll.step cfg (.branch c .invoke) s1).isSome = true) ∨
        (s1.callPc c = .inCall ∧
          (searchAll.step cfg (.branch c .assign) s1).isSome = true)) ∧
    (∀ more s1 r, searchAll.runFrom cfg more s0 = some s1 → s1.ret = some r →
      ∀ c, (s1.callPc c).wrote = false → retLen r c = 0) := by
  have hs := searchAll.run_ok h
  refine ⟨fun c hp => searchAll.recvCancel_enabled cfg s0 hc c hp, ?_, ?_⟩
  · obtain ⟨more, s1, r, h1, h2, -, h4⟩ := searchAll.exists_return hs
    have hs1 := searchAll.runFrom_ok hs h1
    have hw1 : ∀ c, (s1.callPc c).wrote = false := fun c =>
      (searchAll.runFrom_wrote h1 hs (h4 hc) c).trans (hw c)
    have hr : r = ([], [], []) := by
      have e1 := hs1.ret_zero_cat h2 .song (hw1 .song)
      have e2 := hs1.ret_zero_cat h2 .album (hw1 .album)
      have e3 := hs1.ret_zero_cat h2 .artist (hw1 .artist)
      obtain ⟨r1, r2, r3⟩ := r
      simp only [retLen, List.length_eq_zero] at e1 e2 e3
      rw [e1, e2, e3]
    refine ⟨more, s1, h1, h4 hc, hr ▸ h2, ?_⟩
    intro c h0
    have hp := hs1.ret_iff.mp (by rw [h2]; rfl)
    have hn := hs1.started_cat c (hs1.joined_cat (by rw [hp]; decide) c) h0
    rcases CallPc.in_flight hn (hw1 c) with g | g
    · exact Or.inl ⟨g, searchAll.invoke_enabled cfg s1 c g⟩
    · exact Or.inr ⟨g, searchAll.assign_enabled cfg s1 c g⟩
  · intro more s1 r h1 h2 c hwc
    exact (searchAll.runFrom_ok hs h1).ret_zero_cat h2 c hwc

/-- The sample call cancelled while its song call is in flight as an instance of the
theorem above. -/
theorem C7_cancel_abandons_calls_witness :
    searchAll.run (sampleConfig false) cancelledRun = some cancelledState ∧
    cancelledState.ctxErr.isSome = true ∧
    (∀ c, (cancelledState.callPc c).wrote = false) ∧
    cancelledState.callPc Cat.song = CallPc.inCall ∧
    ((∀ c, cancelledState.waitPc c = .select →
      ∃ s1, searchAll.step (sampleConfig false) (.branch c .recvCancel) cancelledState =
          some s1 ∧
        s1.waitPc c = .returned ∧ s1.callPc c = cancelledState.callPc c) ∧
    (∃ more s1, searchAll.runFrom (sampleConfig false) more cancelledState = some s1 ∧
      (∀ a ∈ more, a.byCall = false) ∧
      s1.ret = some ([], [], []) ∧
      ∀ c, (sampleConfig false).sp.count c ≠ 0 →
        (s1.callPc c = .spawned ∧
          (searchAll.step (sampleConfig false) (.branch c .invoke) s1).isSome = true) ∨
        (s1.callPc c = .inCall ∧
          (searchAll.step (sampleConfig false) (.branch c .assign) s1).isSome = true)) ∧
    (∀ more s1 r, searchAll.runFrom (sampleConfig false) more cancelledState = some s1 →
      s1.ret = some r → ∀ c, (s1.callPc c).wrote = false → retLen r c = 0)) :=
  ⟨by rfl, by rfl, fun c => by cases c <;> rfl, by rfl,
    C7_cancel_abandons_calls (sampleConfig false) cancelledRun cancelledState (by rfl) (by rfl)
      (fun c => by cases c <;> rfl)⟩

/-- C8: for a category whose count is not zero, `searchAll` calls the `Search` method of
that category exactly once, with the normalised query and the offset and count of that
category.  At every moment the calls made are none or that one call (so no call is ever
repeated, failed or not); the call has been made in every execution that returned without
cancellation and in every state in which no goroutine can step; such a state is reachable
from every state, and no execution has more than 32 steps. -/
theorem C8_search_called_once_with_own_arguments {α β γ : Type} (cfg : Config α β γ)
    (c : Cat) (h0 : cfg.sp.count c ≠ 0) :
    (∀ acts st, searchAll.run cfg acts = some st →
      st.calls c = [] ∨
      st.calls c = [(normQuery cfg.L cfg.sp.query, cfg.sp.offset c, cfg.sp.count c)]) ∧
    (∀ acts st, searchAll.run cfg acts = some st → st.ctxErr = none → st.ret ≠ none →
      st.calls c = [(normQuery cfg.L cfg.sp.query, cfg.sp.offset c, cfg.sp.count c)]) ∧
    (∀ acts st, searchAll.run cfg acts = some st → st.Quiescent cfg →
      st.calls c = [(normQuery cfg.L cfg.sp.query, cfg.sp.offset c, cfg.sp.count c)]) ∧
    (∀ acts st, searchAll.run cfg acts = some st →
      ∃ more st1, searchAll.runFrom cfg more st = some st1 ∧ st1.Quiescent cfg) ∧
    (∀ acts st, searchAll.run cfg acts = some st → acts.length ≤ 32) := by
  refine ⟨?_, ?_, ?_, ?_, ?_⟩
  · intro acts st h
    rw [(searchAll.run_ok h).calls_cat c]
    split
    · exact Or.inr rfl
    · exact Or.inl rfl
  · intro acts st h hc hr
    have hs := searchAll.run_ok h
    have hp := hs.ret_iff.mp (Option.ne_none_iff_isSome.mp hr)
    have hf := hs.finished_cat hc c (hs.joined_cat (by rw [hp]; decide) c) h0
    rw [hs.calls_cat c, hf]
    rfl
  · intro acts st h hq
    have hs := searchAll.run_ok h
    rw [hs.calls_cat c, hs.quiescent_called hq c h0]
    rfl
  · intro acts st h
    exact searchAll.exists_quiescent st.fuel (searchAll.run_ok h) (le_refl _)
  · intro acts st h
    have := searchAll.run_length h
    omega

/-- The album category of the sample call as an instance of the theorem above, with the
calls of one complete execution evaluated. -/
theorem C8_search_called_once_with_own_arguments_witness :
    (sampleConfig true).sp.count Cat.album ≠ 0 ∧
    (searchAll.run (sampleConfig true) sampleRun).map (fun st => st.calls Cat.album) =
      some [("cafe", 0, 1)] ∧
    ((∀ acts st, searchAll.run (sampleConfig true) acts = some st →
      st.calls Cat.album = [] ∨
      st.calls Cat.album = [(normQuery (sampleConfig true).L (sampleConfig true).sp.query,
        (sampleConfig true).sp.offset Cat.album, (sampleConfig true).sp.count Cat.album)]) ∧
    (∀ acts st, searchAll.run (sampleConfig true) acts = some st → st.ctxErr = none →
      st.ret ≠ none →
      st.calls Cat.album = [(normQuery (sampleConfig true).L (sampleConfig true).sp.query,
        (sampleConfig true).sp.offset Cat.album, (sampleConfig true).sp.count Cat.album)]) ∧
    (∀ acts st, searchAll.run (sampleConfig true) acts = some st →
      st.Quiescent (sampleConfig true) →
      st.calls Cat.album = [(normQuery (sampleConfig true).L (sampleConfig true).sp.query,
        (sampleConfig true).sp.offset Cat.album, (sampleConfig true).sp.count Cat.album)]) ∧
    (∀ acts st, searchAll.run (sampleConfig true) acts = some st →
      ∃ more st1, searchAll.runFrom (sampleConfig true) more st = some st1 ∧
        st1.Quiescent (sampleConfig true)) ∧
    (∀ acts st, searchAll.run (sampleConfig true) acts = some st → acts.length ≤ 32)) :=
  ⟨by decide, by rfl,
    C8_search_called_once_with_own_arguments (sampleConfig true) Cat.album (by decide)⟩

/-- C9: `searchAll` writes exactly one summary line, after the join: no summary line is in
the log before the step of lines 82-87 and exactly one from then on.  That step is taken
with `searchAll` past `wg.Wait()`; if `ctx.Err()` is nil at that point the line is the
debug line carrying the lengths of the three results, and these are the lengths of the
sequences returned (the returned triple is the content of the result variables at that
point); otherwise it is the one warn line with `ctx.Err()`.  The return step returns the
content of the result variables unchanged and logs nothing. -/
theorem C9_one_summary_line {α β γ : Type} (cfg : Config α β γ) :
    (∀ acts st, searchAll.run cfg acts = some st →
      (st.log.filter LogEntry.isSummary).length =
        if st.pc = .logged ∨ st.pc = .returned then 1 else 0) ∧
    (∀ pre post s0 st, searchAll.run cfg pre = some s0 →
      searchAll.runFrom cfg (Action.summary :: post) s0 = some st →
      s0.pc = .joined ∧ s0.log.filter LogEntry.isSummary = [] ∧
      (s0.ctxErr = none →
        st.log.filter LogEntry.isSummary =
          [LogEntry.debug s0.song.result.length s0.album.result.length
            s0.artist.result.length cfg.sp.query] ∧
        ∀ r, st.ret = some r → r = (s0.song.result, s0.album.result, s0.artist.result)) ∧
      (∀ e, s0.ctxErr = some e →
        st.log.filter LogEntry.isSummary = [LogEntry.warn e cfg.sp.query])) ∧
    (∀ acts st st1, searchAll.run cfg acts = some st →
      searchAll.step cfg Action.ret st = some st1 →
      st1.ret = some (st.song.result, st.album.result, st.artist.result) ∧
      st1.log = st.log) := by
  refine ⟨?_, ?_, ?_⟩
  · intro acts st h
    have hs := searchAll.run_ok h
    by_cases hr : 6 ≤ st.pc.rank
    · have hp : st.pc = .logged ∨ st.pc = .returned := by
        cases hpc : st.pc <;> rw [hpc] at hr <;> simp at hr ⊢
      rw [if_pos hp]
      rcases hs.sum_one hr with ⟨-, g⟩ | ⟨e, -, g⟩ <;> rw [g] <;> rfl
    · have hp : ¬ (st.pc = .logged ∨ st.pc = .returned) := by
        rintro (g | g) <;> rw [g] at hr <;> simp at hr
      rw [if_neg hp, hs.sum_none (by omega)]
      rfl
  · intro pre post s0 st h0 h
    have hs0 := searchAll.run_ok h0
    simp only [searchAll.runFrom, Option.bind_eq_some] at h
    obtain ⟨s1, h1, h2⟩ := h
    have hs1 := searchAll.step_ok h1 hs0
    simp only [searchAll.step] at h1
    split_ifs at h1 with g
    simp only [Option.some.injEq] at h1
    have hr0 : s0.pc.rank = 5 := by rw [g]; rfl
    have hn := hs0.sum_none (by omega)
    have hr1 : 6 ≤ s1.pc.rank := by rw [← h1]; exact Nat.le_refl 6
    have hf := searchAll.runFrom_summary_fixed h2 hs1 hr1
    have hl : s1.log.filter LogEntry.isSummary =
        [searchAll.summaryLine cfg.sp.query s0.song.result.length s0.album.result.length
          s0.artist.result.length s0.ctxErr] := by
      rw [← h1]
      simp only [List.filter_append, hn, List.nil_append]
      rw [List.filter_cons, searchAll.summaryLine_isSummary]
      rfl
    refine ⟨g, hn, ?_, ?_⟩
    · intro hc
      rw [hc] at hl
      refine ⟨hf.trans hl, ?_⟩
      intro r hr
      have t1 := hs0.song
      have t2 := hs0.album
      have t3 := hs0.artist
      rw [hc] at t1 t2 t3
      have hst0 : s0.Stable := ⟨t1.settled (t1.joined (by omega)),
        t2.settled (t2.joined (by omega)), t3.settled (t3.joined (by omega))⟩
      have hst1 : s1.Stable := by rw [← h1]; exact hst0
      obtain ⟨e1, e2, e3⟩ := searchAll.runFrom_settled h2 hs1 (by omega) hst1
      have hst : st.Stable := by
        unfold State.Stable
        rw [e1, e2, e3]
        exact hst1
      rw [(searchAll.runFrom_ok hs1 h2).ret_eq r hr hst, e1, e2, e3, ← h1]
    · intro e hc
      rw [hc] at hl
      exact hf.trans hl
  · intro acts st st1 h h1
    simp only [searchAll.step] at h1
    split_ifs at h1
    simp only [Option.some.injEq] at h1
    rw [← h1]
    exact ⟨rfl, rfl⟩

/-- The sample call as an instance of the theorem above, with the summary lines of an
execution without cancellation and of one with cancellation evaluated. -/
theorem C9_one_summary_line_witness :
    (searchAll.run (sampleConfig false) sampleRun).map
      (fun st => (st.log.filter LogEntry.isSummary, st.ret)) =
      some ([LogEntry.debug 2 1 1 "Café*"], some ([11, 12], [21], [31])) ∧
    (searchAll.run (sampleConfig false) abandonRun).map
      (fun st => (st.log.filter LogEntry.isSummary, st.ret)) =
      some ([LogEntry.warn CtxErr.canceled "Café*"], some ([11, 12], [], [])) ∧
    ((∀ acts st, searchAll.run (sampleConfig false) acts = some st →
      (st.log.filter LogEntry.isSummary).length =
        if st.pc = .logged ∨ st.pc = .returned then 1 else 0) ∧
    (∀ pre post s0 st, searchAll.run (sampleConfig false) pre = some s0 →
      searchAll.runFrom (sampleConfig false) (Action.summary :: post) s0 = some st →
      s0.pc = .joined ∧ s0.log.filter LogEntry.isSummary = [] ∧
      (s0.ctxErr = none →
        st.log.filter LogEntry.isSummary =
          [LogEntry.debug s0.song.result.length s0.album.result.length
            s0.artist.result.length (sampleConfig false).sp.query] ∧
        ∀ r, st.ret = some r → r = (s0.song.result, s0.album.result, s0.artist.result)) ∧
      (∀ e, s0.ctxErr = some e →
        st.log.filter LogEntry.isSummary = [LogEntry.warn e (sampleConfig false).sp.query])) ∧
    (∀ acts st st1, searchAll.run (sampleConfig false) acts = some st →
      searchAll.step (sampleConfig false) Action.ret st = some st1 →
      st1.ret = some (st.song.result, st.album.result, st.artist.result) ∧
      st1.log = st.log)) :=
  ⟨by rfl, by rfl, C9_one_summary_line (sampleConfig false)⟩

/-- C10: every step of a `doSearch` invocation signals `wg.Done()` exactly when it is the
step by which the invocation returns, and an invocation that has returned stays returned;
so in every state of `searchAll` each invocation has signalled once if it has returned and
not at all otherwise, the counter is the 3 added by `searchAll` (0 before that) less the
signals given, it is never negative, and after the `wg.Add(3)` it is 0 exactly when the
three invocations have returned.  When no goroutine can step any more, each invocation
has signalled exactly once and the counter is 0. -/
theorem C10_wait_group_counter {α β γ : Type} (cfg : Config α β γ) :
    (∀ (T : Type) (s : searchFunc T) (typ : String) (cancelled : Bool) (a : Act)
        (b : Branch T) r, doSearch.step s typ cancelled a b = some r →
      (r.2.1 = true ↔ (b.pc ≠ .returned ∧ r.1.pc = .returned)) ∧
      r.1.dones = b.dones + (if r.2.1 then 1 else 0) ∧
      (b.pc = .returned → r.1.pc = .returned)) ∧
    (∀ acts st, searchAll.run cfg acts = some st →
      (∀ c, st.dones c = if st.waitPc c = .returned then 1 else 0) ∧
      st.wg = (if st.pc = .start then 0 else 3) -
        ((st.dones .song + st.dones .album + st.dones .artist : Nat) : Int) ∧
      0 ≤ st.wg ∧
      (st.pc ≠ .start → (st.wg = 0 ↔ ∀ c, st.waitPc c = .returned))) ∧
    (∀ acts st, searchAll.run cfg acts = some st → st.Quiescent cfg →
      (∀ c, st.dones c = 1) ∧ st.wg = 0) := by
  have key : ∀ st : State α β γ, st.Ok cfg →
      (∀ c, st.dones c = if st.waitPc c = .returned then 1 else 0) ∧
      st.wg = (if st.pc = .start then 0 else 3) -
        ((st.dones .song + st.dones .album + st.dones .artist : Nat) : Int) ∧
      0 ≤ st.wg ∧
      (st.pc ≠ .start → (st.wg = 0 ↔ ∀ c, st.waitPc c = .returned)) := by
    intro st hs
    have hw := hs.wg_eq
    have d1 := hs.song.ok.dones_le
    have d2 := hs.album.ok.dones_le
    have d3 := hs.artist.ok.dones_le
    refine ⟨hs.dones_cat, hw, ?_, ?_⟩
    · by_cases hp : st.pc = .start
      · have hr : st.pc.rank = 0 := by rw [hp]; rfl
        have e1 := hs.song.ok.dones_eq
        have e2 := hs.album.ok.dones_eq
        have e3 := hs.artist.ok.dones_eq
        rw [if_neg (by rw [hs.song.spawn.mpr (by omega)]; decide)] at e1
        rw [if_neg (by rw [hs.album.spawn.mpr (by omega)]; decide)] at e2
        rw [if_neg (by rw [hs.artist.spawn.mpr (by omega)]; decide)] at e3
        rw [if_pos hp] at hw
        omega
      · rw [if_neg hp] at hw
        omega
    · intro hp
      constructor
      · intro h0
        obtain ⟨r1, r2, r3⟩ := hs.all_returned hp h0
        intro c
        cases c
        · exact r1
        · exact r2
        · exact r3
      · intro hall
        have e1 := hs.dones_cat .song
        have e2 := hs.dones_cat .album
        have e3 := hs.dones_cat .artist
        rw [if_pos (hall _)] at e1 e2 e3
        have e1 : st.song.dones = 1 := e1
        have e2 : st.album.dones = 1 := e2
        have e3 : st.artist.dones = 1 := e3
        rw [if_neg hp] at hw
        omega
  refine ⟨?_, fun acts st h => key st (searchAll.run_ok h), ?_⟩
  · intro T s typ cancelled a b r h
    obtain ⟨q, off, size, pc, inner, result, calls, dones⟩ := b
    cases a <;> simp only [doSearch.step] at h <;> split_ifs at h <;>
      simp only [Option.some.injEq] at h <;> subst h <;> simp_all
  · intro acts st h hq
    have hs := searchAll.run_ok h
    have hp := hs.quiescent_returned hq
    have hall : ∀ c, st.waitPc c = .returned := hs.joined_cat (by rw [hp]; decide)
    obtain ⟨k1, -, -, k4⟩ := key st hs
    refine ⟨fun c => ?_, (k4 (by rw [hp]; decide)).mpr hall⟩
    rw [k1 c, if_pos (hall c)]

/-- The sample call as an instance of the theorem above, with the value of the counter
after every step of an execution without cancellation and of one with cancellation. -/
theorem C10_wait_group_counter_witness :
    ((List.range (sampleRun.length + 1)).map fun n =>
      (searchAll.run (sampleConfig false) (sampleRun.take n)).map fun st => st.wg) =
      [some 0, some 3, some 3, some 3, some 3, some 3, some 3, some 3, some 3, some 2, some 2,
       some 2, some 2, some 2, some 1, some 1, some 1, some 1, some 1, some 0, some 0, some 0,
       some 0] ∧
    ((List.range (abandonRun.length + 1)).map fun n =>
      (searchAll.run (sampleConfig false) (abandonRun.take n)).map fun st => st.wg) =
      [some 0, some 3, some 3, some 3, some 3, some 3, some 3, some 3, some 2, some 2, some 1,
       some 1, some 0, some 0, some 0, some 0, some 0] ∧
    ((∀ (T : Type) (s : searchFunc T) (typ : String) (cancelled : Bool) (a : Act)
        (b : Branch T) r, doSearch.step s typ cancelled a b = some r →
      (r.2.1 = true ↔ (b.pc ≠ .returned ∧ r.1.pc = .returned)) ∧
      r.1.dones = b.dones + (if r.2.1 then 1 else 0) ∧
      (b.pc = .returned → r.1.pc = .returned)) ∧
    (∀ acts st, searchAll.run (sampleConfig false) acts = some st →
      (∀ c, st.dones c = if st.waitPc c = .returned then 1 else 0) ∧
      st.wg = (if st.pc = .start then 0 else 3) -
        ((st.dones .song + st.dones .album + st.dones .artist : Nat) : Int) ∧
      0 ≤ st.wg ∧
      (st.pc ≠ .start → (st.wg = 0 ↔ ∀ c, st.waitPc c = .returned))) ∧
    (∀ acts st, searchAll.run (sampleConfig false) acts = some st → st.Quiescent (sampleConfig false) →
      (∀ c, st.dones c = 1) ∧ st.wg = 0)) :=
  ⟨by rfl, by rfl, C10_wait_group_counter (sampleConfig false)⟩

end Subsonic
